import Mathlib

/-!
Shallow embedding of the asset search, moderation, saved-asset and
download-history logic of the skowtcc/api repository
(src/routes/asset/search.ts, upload.ts, approval-queue.ts, the history and
saved-asset routes, and the drizzle schema), together with proofs about the
claims of the specification.

Database tables are lists of rows; SQL reads are filters and joins over
those lists; the blob store is a list of object keys.  Timestamps and
uuidv7 identifiers (which are time-sortable) are modelled by a counter that
increases at every insertion.
-/

namespace Skowtcc

/-- Moderation status of an asset: column status of table asset
(schema asset.ts: enum pending, approved, denied). -/
inductive ModStatus where
  | pending
  | approved
  | denied
deriving DecidableEq

/-- A row of the game table (id primary key, slug unique). -/
structure GameRow where
  id : String
  slug : String
  name : String
deriving DecidableEq

/-- A row of the category table (id primary key, slug unique). -/
structure CategoryRow where
  id : String
  slug : String
  name : String
deriving DecidableEq

/-- A row of the tag table (id primary key, slug unique, optional color). -/
structure TagRow where
  id : String
  slug : String
  name : String
  color : Option String
deriving DecidableEq

/-- A row of the asset table (schema asset.ts).  createdAt is a numeric
timestamp. -/
structure AssetRow where
  id : String
  name : String
  gameId : String
  categoryId : String
  downloadCount : Nat
  viewCount : Nat
  size : Nat
  extension : String
  createdAt : Nat
  isSuggestive : Bool
  uploadedBy : String
  status : ModStatus
deriving DecidableEq

/-- A row of the asset_to_tag join table. -/
structure AssetTagRow where
  assetId : String
  tagId : String
deriving DecidableEq

/-- The relational state read by the search routes. -/
structure Db where
  games : List GameRow
  categories : List CategoryRow
  tags : List TagRow
  assets : List AssetRow
  assetToTag : List AssetTagRow
deriving DecidableEq

/-! ## Generic helpers mirroring the JavaScript constructions -/

/-- Lookup in a map built by Object.fromEntries: when several entries share
a key the LAST one wins, so the lookup finds the last matching entry. -/
def fromEntries (l : List (String × α)) (k : String) : Option α :=
  (l.reverse.find? (fun p => p.1 == k)).map (fun p => p.2)

/-- JavaScript String.prototype.split on the comma separator: cut the
character list at every comma, keeping empty pieces. -/
def splitCommaAux : List Char → List Char → List (List Char)
  | [], acc => [acc.reverse]
  | c :: rest, acc =>
      if c = ',' then acc.reverse :: splitCommaAux rest []
      else splitCommaAux rest (c :: acc)

def jsSplitComma (s : String) : List String :=
  (splitCommaAux s.data []).map (fun l => ⟨l⟩)

/-- JavaScript String.prototype.trim: strip leading and trailing
whitespace. -/
def jsTrim (s : String) : String :=
  ⟨((s.data.dropWhile Char.isWhitespace).reverse.dropWhile Char.isWhitespace).reverse⟩

/-- splitSlugs models query.tags.split(",").map(t =&gt; t.trim()).filter(Boolean)
applied to an optional comma-separated query parameter (absent, and in the
route also empty, parameters contribute no slugs because of the truthiness
test on the raw string). -/
def splitSlugs (raw : Option String) : List String :=
  match raw with
  | none => []
  | some s =>
      if s == "" then []
      else ((jsSplitComma s).map (fun t => jsTrim t)).filter (fun t => !(t == ""))

/-- Case-sensitive substring containment on strings. -/
def containsSub (needle hay : String) : Bool :=
  (hay.data.tails).any (fun suf => needle.data.isPrefixOf suf)

/-- SQL LIKE with pattern percent-name-percent: substring containment.
SQLite LIKE compares ASCII case-insensitively, hence the toLower. -/
def likeContains (pat : String) (s : String) : Bool :=
  containsSub (pat.toLower) (s.toLower)

/-! ## GET /asset/search, offset revision (search.ts, first revision)

The route builds slug-to-id maps from the game, category and tag tables,
assembles filter conditions, always conjoins status = approved, sorts,
fetches limit 21 offset N, and reports hasNext when more than 20 rows came
back. -/

/-- Sort key accepted by the search route (default uploadDate). -/
inductive SortKey where
  | viewCount
  | downloadCount
  | uploadDate
  | name
deriving DecidableEq

/-- Sort direction (default desc). -/
inductive SortDir where
  | asc
  | desc
deriving DecidableEq

/-- Query of the offset revision of GET /asset/search after the handler
applied its defaults (offset 0, sortBy uploadDate, sortOrder desc). -/
structure SearchQuery where
  name : Option String
  tags : Option String
  games : Option String
  categories : Option String
  offset : Int
  sortKey : SortKey
  sortDir : SortDir
deriving DecidableEq

/-- Slug resolution through the per-request lookup map
(slug list mapped through the map, undefined entries filtered out). -/
def resolveGameIds (d : Db) (slugs : List String) : List String :=
  (slugs.map (fun s => fromEntries (d.games.map (fun g => (g.slug, g.id))) s)).reduceOption

def resolveCategoryIds (d : Db) (slugs : List String) : List String :=
  (slugs.map (fun s => fromEntries (d.categories.map (fun c => (c.slug, c.id))) s)).reduceOption

def resolveTagIds (d : Db) (slugs : List String) : List String :=
  (slugs.map (fun s => fromEntries (d.tags.map (fun t => (t.slug, t.id))) s)).reduceOption

/-- The tag-intersection subquery: select assetId from asset_to_tag where
tagId in tagIds group by assetId having count(distinct tagId) = tagIds.length.
An asset id passes when the distinct tag ids among its links that fall in
tagIds number exactly tagIds.length. -/
def tagIntersectCond (d : Db) (tagIds : List String) (assetId : String) : Bool :=
  (((d.assetToTag.filter
        (fun l => l.assetId == assetId && tagIds.contains l.tagId)).map
      (fun l => l.tagId)).dedup).length == tagIds.length

/-- The name condition: pushed only when the name parameter is truthy. -/
def nameCond (qname : Option String) (a : AssetRow) : Bool :=
  match qname with
  | none => true
  | some n => if n == "" then true else likeContains n a.name

/-- The game condition: pushed only when slugs were supplied AND at least
one resolved to an id; otherwise no constraint is applied. -/
def gameCond (d : Db) (qgames : Option String) (a : AssetRow) : Bool :=
  let slugs := splitSlugs qgames
  if slugs.isEmpty then true
  else
    let ids := resolveGameIds d slugs
    if ids.isEmpty then true else ids.contains a.gameId

def categoryCond (d : Db) (qcategories : Option String) (a : AssetRow) : Bool :=
  let slugs := splitSlugs qcategories
  if slugs.isEmpty then true
  else
    let ids := resolveCategoryIds d slugs
    if ids.isEmpty then true else ids.contains a.categoryId

def tagCond (d : Db) (qtags : Option String) (a : AssetRow) : Bool :=
  let slugs := splitSlugs qtags
  if slugs.isEmpty then true
  else
    let ids := resolveTagIds d slugs
    if ids.isEmpty then true else tagIntersectCond d ids a.id

/-- The whole WHERE clause of the offset revision: the optional conditions
conjoined with the unconditional status = approved constraint. -/
def matchesSearch (d : Db) (q : SearchQuery) (a : AssetRow) : Bool :=
  nameCond q.name a && gameCond d q.games a && categoryCond d q.categories a &&
    tagCond d q.tags a && (a.status == ModStatus.approved)

/-- Ascending comparison for the selected sort column. -/
def keyLeAsc (k : SortKey) (a b : AssetRow) : Prop :=
  match k with
  | SortKey.viewCount => a.viewCount ≤ b.viewCount
  | SortKey.downloadCount => a.downloadCount ≤ b.downloadCount
  | SortKey.uploadDate => a.createdAt ≤ b.createdAt
  | SortKey.name => a.name ≤ b.name

instance keyLeAscDec (k : SortKey) : DecidableRel (keyLeAsc k) := by
  intro a b
  cases k <;> (unfold keyLeAsc; infer_instance)

/-- The ORDER BY relation: the ascending key, flipped for desc. -/
def searchLe (k : SortKey) (dir : SortDir) (a b : AssetRow) : Prop :=
  match dir with
  | SortDir.asc => keyLeAsc k a b
  | SortDir.desc => keyLeAsc k b a

instance searchLeDec (k : SortKey) (dir : SortDir) : DecidableRel (searchLe k dir) := by
  intro a b
  cases dir <;> (unfold searchLe; infer_instance)

/-- The filtered rows of the base query (WHERE applied to the asset table). -/
def searchFiltered (d : Db) (q : SearchQuery) : List AssetRow :=
  d.assets.filter (matchesSearch d q)

/-- The filtered rows after ORDER BY. -/
def searchSorted (d : Db) (q : SearchQuery) : List AssetRow :=
  List.insertionSort (searchLe q.sortKey q.sortDir) (searchFiltered d q)

/-- limit(21).offset(offset) applied to the ordered rows. -/
def searchFetch (d : Db) (q : SearchQuery) : List AssetRow :=
  ((searchSorted d q).drop q.offset.toNat).take 21

/-- hasNext: assets.length greater than 20. -/
def searchHasNext (d : Db) (q : SearchQuery) : Bool :=
  decide (20 < (searchFetch d q).length)

/-- finalAssets: the first 20 rows when a 21st one was fetched. -/
def searchPage (d : Db) (q : SearchQuery) : List AssetRow :=
  if searchHasNext d q then (searchFetch d q).take 20 else searchFetch d q

/-- Response of the offset revision of GET /asset/search. -/
inductive SearchResponse where
  | ok (assets : List AssetRow) (offset : Int) (hasNext : Bool)
  | badRequest (message : String)
deriving DecidableEq

/-- The handler of the offset revision: 400 for a negative offset, otherwise
the page with its pagination record. -/
def AssetSearchRoute (d : Db) (q : SearchQuery) : SearchResponse :=
  if q.offset < 0 then SearchResponse.badRequest "Offset must be 0 or greater"
  else SearchResponse.ok (searchPage d q) q.offset (searchHasNext d q)

/-! ## GET /asset/search, page revision (search.ts, second revision)

This revision inner-joins game and category, filters game and category by
slug directly, uses a tag subquery joined with the tag table counting
distinct tag slugs, runs a separate COUNT query for the total, and reports
hasNext as page less than totalPages.  It applies NO moderation-status
constraint and no ORDER BY. -/

/-- Query of the page revision after defaults (page 1, limit 20). -/
structure PagedQuery where
  name : Option String
  tags : Option String
  games : Option String
  categories : Option String
  page : Int
  limitParam : Option Nat
deriving DecidableEq

/-- limit: the supplied value capped by Math.min at 50, default 20. -/
def pagedLimit (q : PagedQuery) : Nat :=
  match q.limitParam with
  | none => 20
  | some n => min n 50

/-- offset = (page - 1) * limit. -/
def pagedOffset (q : PagedQuery) : Nat :=
  (q.page.toNat - 1) * pagedLimit q

/-- The inner joins of the base query: every (asset, game, category) tuple
with asset.gameId = game.id and asset.categoryId = category.id. -/
def pagedJoined (d : Db) : List (AssetRow × GameRow × CategoryRow) :=
  d.assets.flatMap (fun a =>
    (d.games.filter (fun g => g.id == a.gameId)).flatMap (fun g =>
      (d.categories.filter (fun c => c.id == a.categoryId)).map (fun c => (a, g, c))))

/-- The tag subquery of the page revision: asset_to_tag inner-joined with
tag, filtered to tag.slug in tagSlugs, grouped by assetId, having
count(distinct tag.slug) = tagSlugs.length. -/
def tagSlugIntersectCond (d : Db) (tagSlugs : List String) (assetId : String) : Bool :=
  ((((d.assetToTag.flatMap (fun l =>
        (d.tags.filter (fun t => t.id == l.tagId)).map (fun t => (l, t)))).filter
      (fun p => p.1.assetId == assetId && tagSlugs.contains p.2.slug)).map
    (fun p => p.2.slug)).dedup).length == tagSlugs.length

/-- WHERE clause of the page revision on a joined tuple: no status filter. -/
def pagedMatches (d : Db) (q : PagedQuery) (row : AssetRow × GameRow × CategoryRow) : Bool :=
  nameCond q.name row.1 &&
    (let slugs := splitSlugs q.games
     if slugs.isEmpty then true else slugs.contains row.2.1.slug) &&
    (let slugs := splitSlugs q.categories
     if slugs.isEmpty then true else slugs.contains row.2.2.slug) &&
    (let slugs := splitSlugs q.tags
     if slugs.isEmpty then true else tagSlugIntersectCond d slugs row.1.id)

/-- The filtered joined rows (this revision issues no ORDER BY, so the rows
come back in table order). -/
def pagedRows (d : Db) (q : PagedQuery) : List (AssetRow × GameRow × CategoryRow) :=
  (pagedJoined d).filter (pagedMatches d q)

/-- The COUNT(*) query over the same joins and conditions. -/
def pagedTotal (d : Db) (q : PagedQuery) : Nat :=
  (pagedRows d q).length

/-- totalPages = Math.ceil(total / limit), for a positive limit. -/
def pagedTotalPages (d : Db) (q : PagedQuery) : Nat :=
  (pagedTotal d q + pagedLimit q - 1) / pagedLimit q

/-- The page: limit(limit).offset(offset) on the filtered rows. -/
def pagedPage (d : Db) (q : PagedQuery) : List (AssetRow × GameRow × CategoryRow) :=
  ((pagedRows d q).drop (pagedOffset q)).take (pagedLimit q)

/-- Response of the page revision. -/
inductive PagedResponse where
  | ok (assets : List (AssetRow × GameRow × CategoryRow)) (page : Int) (limit : Nat)
      (total : Nat) (totalPages : Nat) (hasNext : Bool) (hasPrev : Bool)
  | badRequest (message : String)
deriving DecidableEq

/-- The handler of the page revision: 400 when page is below 1, otherwise
the page with pagination, hasNext = page < totalPages. -/
def AssetSearchRoutePaged (d : Db) (q : PagedQuery) : PagedResponse :=
  if q.page < 1 then PagedResponse.badRequest "Page must be 1 or greater"
  else
    PagedResponse.ok (pagedPage d q) q.page (pagedLimit q) (pagedTotal d q)
      (pagedTotalPages d q)
      (decide (q.page < (pagedTotalPages d q : Int)))
      (decide (1 < q.page))

/-! ## POST /asset/history (history route, first revision: capped ledger)

One download_history row is one batch; download_history_to_asset links the
batch to its asset ids.  Identifiers are uuidv7 (generated at insertion
time, time-sortable) and createdAt defaults to the insertion time, so both
are modelled by a counter that the state increments at every insertion. -/

/-- A row of the download_history table. -/
structure HistoryBatch where
  id : Nat
  userId : String
  createdAt : Nat
deriving DecidableEq

/-- A row of the download_history_to_asset table. -/
structure HistoryLink where
  downloadHistoryId : Nat
  assetId : String
deriving DecidableEq

/-- State touched by the history route: the asset ids present in the asset
table, the two history tables, and the insertion counter that supplies
fresh ids and timestamps. -/
structure LedgerState where
  assetTable : List String
  batches : List HistoryBatch
  links : List HistoryLink
  counter : Nat
deriving DecidableEq

/-- The rows of download_history belonging to one user. -/
def userBatches (s : LedgerState) (u : String) : List HistoryBatch :=
  s.batches.filter (fun b => b.userId == u)

/-- ORDER BY createdAt asc. -/
def createdAsc (a b : HistoryBatch) : Prop := a.createdAt ≤ b.createdAt

instance createdAscDec : DecidableRel createdAsc := by
  intro a b
  unfold createdAsc
  infer_instance

instance createdAscTotal : IsTotal HistoryBatch createdAsc :=
  ⟨fun a b => Nat.le_total a.createdAt b.createdAt⟩

instance createdAscTrans : IsTrans HistoryBatch createdAsc :=
  ⟨fun _ _ _ hab hbc => Nat.le_trans hab hbc⟩

/-- Result of the POST /asset/history handler.  A badRequest carries the
untouched state: the 400 is returned before anything is written. -/
inductive RecordResult where
  | ok (s : LedgerState) (historyId : Nat)
  | badRequest (s : LedgerState) (message : String)
deriving DecidableEq

/-- The ids of the oldest (count - 499) user batches by ascending
createdAt: the rows the eviction deletes. -/
def evictIds (s : LedgerState) (u : String) : List Nat :=
  ((List.insertionSort createdAsc (userBatches s u)).take
    ((userBatches s u).length - 499)).map (fun b => b.id)

/-- The eviction statements of the transaction: delete the oldest
(count - 499) batches of the user and their links. -/
def evictOld (s : LedgerState) (u : String) : LedgerState :=
  { assetTable := s.assetTable,
    batches := s.batches.filter (fun b => !((evictIds s u).contains b.id)),
    links := s.links.filter (fun l => !((evictIds s u).contains l.downloadHistoryId)),
    counter := s.counter }

/-- The insert statements of the transaction: one new batch row (fresh
uuidv7 id and createdAt now, both supplied by the counter) and one link
per asset id. -/
def insertBatch (s : LedgerState) (u : String) (assetIds : List String) : LedgerState :=
  { assetTable := s.assetTable,
    batches := s.batches ++ [{ id := s.counter, userId := u, createdAt := s.counter }],
    links := s.links ++
      assetIds.map (fun a => { downloadHistoryId := s.counter, assetId := a }),
    counter := s.counter + 1 }

/-- POST /asset/history: select the assets whose id is in assetIds and
reject the batch when fewer rows than ids came back; otherwise, in one
transaction, count the user batches, evict when the count is at least 500,
and insert the new batch.  The whole transition is one function: eviction
and insertion are atomic by construction, as the drizzle.transaction block
is. -/
def recordBatch (s : LedgerState) (u : String) (assetIds : List String) : RecordResult :=
  if (s.assetTable.filter (fun a => assetIds.contains a)).length != assetIds.length then
    RecordResult.badRequest s "Invalid asset IDs"
  else if 500 ≤ (userBatches s u).length then
    RecordResult.ok (insertBatch (evictOld s u) u assetIds) (evictOld s u).counter
  else
    RecordResult.ok (insertBatch s u assetIds) s.counter

/-- N sequential POST /asset/history requests by the same user; request k
carries the asset ids reqs k.  A rejected request leaves the state as the
handler left it (untouched). -/
def runBatches (s : LedgerState) (u : String) (reqs : Nat → List String) : Nat → LedgerState
  | 0 => s
  | n + 1 =>
      match recordBatch (runBatches s u reqs n) u (reqs n) with
      | RecordResult.ok s' _ => s'
      | RecordResult.badRequest s' _ => s'

/-! ## Moderation: approve and deny

Storage paths are namespaced by moderation state; the blob store is the
set of object keys it currently holds. -/

/-- Quarantine path limbo slash assetId dot extension. -/
def limboPath (assetId ext : String) : String :=
  "limbo/" ++ assetId ++ "." ++ ext

/-- Public path asset slash assetId dot extension. -/
def assetPath (assetId ext : String) : String :=
  "asset/" ++ assetId ++ "." ++ ext

/-- The blob store (env.CDN): the keys currently present. -/
structure CdnState where
  objects : List String
deriving DecidableEq

def cdnHas (c : CdnState) (p : String) : Bool := c.objects.contains p

def cdnPut (c : CdnState) (p : String) : CdnState :=
  { objects := p :: c.objects.filter (fun q => !(q == p)) }

def cdnDelete (c : CdnState) (p : String) : CdnState :=
  { objects := c.objects.filter (fun q => !(q == p)) }

/-- Outcome of a moderation handler: HTTP status, optional error message,
and the database and blob-store states it leaves behind. -/
structure ModOutcome where
  httpStatus : Nat
  message : Option String
  db : Db
  cdn : CdnState
deriving DecidableEq

/-- POST /asset/{id}/approve (part 009 revision): look the asset up (404 when
absent), then update its status to approved, THEN get the quarantine object
(404 when the file is missing, with the status update already performed),
then copy it to the public path and delete the quarantine copy. -/
def AssetApproveRoute (d : Db) (cdn : CdnState) (id : String) : ModOutcome :=
  match d.assets.find? (fun a => a.id == id) with
  | none => ⟨404, some "Asset not found", d, cdn⟩
  | some foundAsset =>
      let d1 : Db :=
        { d with assets := d.assets.map (fun a =>
            if a.id == id then { a with status := ModStatus.approved } else a) }
      if cdnHas cdn (limboPath foundAsset.id foundAsset.extension) then
        let cdn1 := cdnPut cdn (assetPath foundAsset.id foundAsset.extension)
        let cdn2 := cdnDelete cdn1 (limboPath foundAsset.id foundAsset.extension)
        ⟨200, none, d1, cdn2⟩
      else ⟨404, some "Asset file not found", d1, cdn⟩

/-- POST /asset/{id}/deny as implemented in approval-queue.ts: look the
asset up (404 when absent), then update its status to denied.  The asset
row and its quarantine file are left in place. -/
def AssetDenyRoute (d : Db) (cdn : CdnState) (id : String) : ModOutcome :=
  match d.assets.find? (fun a => a.id == id) with
  | none => ⟨404, some "Asset not found", d, cdn⟩
  | some _ =>
      ⟨200, none,
        { d with assets := d.assets.map (fun a =>
            if a.id == id then { a with status := ModStatus.denied } else a) },
        cdn⟩

/-- POST /asset/{id}/deny in the part 009 revision: look the asset up (404
when absent), delete the asset row, and delete the quarantine object. -/
def AssetDenyRouteP9 (d : Db) (cdn : CdnState) (id : String) : ModOutcome :=
  match d.assets.find? (fun a => a.id == id) with
  | none => ⟨404, some "Asset not found", d, cdn⟩
  | some foundAsset =>
      ⟨200, none,
        { d with assets := d.assets.filter (fun a => !(a.id == id)) },
        cdnDelete cdn (limboPath foundAsset.id foundAsset.extension)⟩

/-! ## POST /asset/upload helpers (upload.ts) -/

/-- parseTags: split the raw comma-separated field, trim, drop empties,
keep the first 20 entries; an absent or whitespace-only field gives none. -/
def parseTags (tagsRaw : Option String) : List String :=
  match tagsRaw with
  | none => []
  | some s =>
      if jsTrim s == "" then []
      else ((((jsSplitComma s).map (fun t => jsTrim t)).filter (fun t => !(t == ""))).take 20)

/-- determineAssetStatus: admins auto-approve, everyone else is pending. -/
def determineAssetStatus (userRole : String) : ModStatus :=
  if userRole == "admin" then ModStatus.approved else ModStatus.pending

/-- getStoragePath: the asset namespace for admins, limbo for others. -/
def getStoragePath (assetId ext : String) (isAdmin : Bool) : String :=
  (if isAdmin then "asset" else "limbo") ++ "/" ++ assetId ++ "." ++ ext

/-- attachTags: select the tag rows whose id is among the requested ids (in
tag-table order) and insert one asset_to_tag link per surviving id; ids
with no tag row are silently dropped and an empty survivor list inserts
nothing.  The function always succeeds. -/
def attachTags (tagTable : List TagRow) (links : List AssetTagRow)
    (assetId : String) (tagIds : List String) : List AssetTagRow :=
  if tagIds.isEmpty then links
  else
    let validTagIds := (tagTable.filter (fun t => tagIds.contains t.id)).map (fun t => t.id)
    if validTagIds.isEmpty then links
    else links ++ validTagIds.map (fun tid => { assetId := assetId, tagId := tid })

/-! ## Saved assets (save-asset and unsave-asset routes) -/

/-- A row of the saved_asset table. -/
structure SavedAssetRow where
  id : String
  userId : String
  assetId : String
  createdAt : Nat
deriving DecidableEq

/-- State touched by the saved-asset routes. -/
structure SaveState where
  assets : List AssetRow
  saved : List SavedAssetRow
deriving DecidableEq

/-- POST /user/saved-assets/{id}: 404 when the asset row is missing, 400
when a saved_asset row for this (user, asset) pair already exists,
otherwise insert one row (id and savedAt supplied by the environment). -/
def UserSaveAssetRoute (s : SaveState) (u a freshId : String) (now : Nat) :
    Nat × SaveState :=
  if (s.assets.filter (fun x => x.id == a)).isEmpty then (404, s)
  else if !((s.saved.filter (fun r => r.userId == u && r.assetId == a)).isEmpty) then
    (400, s)
  else (201, { s with saved := s.saved ++ [⟨freshId, u, a, now⟩] })

/-- DELETE /user/saved-assets/{assetId}: 404 when no saved_asset row for
this (user, asset) pair exists, otherwise delete the matching rows. -/
def UserUnsaveAssetRoute (s : SaveState) (u a : String) : Nat × SaveState :=
  if (s.saved.filter (fun r => r.userId == u && r.assetId == a)).isEmpty then (404, s)
  else
    (200, { s with saved := s.saved.filter (fun r => !(r.userId == u && r.assetId == a)) })

/-! ## Stated properties -/

/-- Primary-key and time-sortability facts the database guarantees for the
history tables: ids are unique, timestamps of distinct insertions are
distinct, and every stored id and timestamp predates the counter (uuidv7
tokens are time-ordered). -/
def LedgerWF (s : LedgerState) : Prop :=
  (s.batches.map (fun b => b.id)).Nodup ∧
  (s.batches.map (fun b => b.createdAt)).Nodup ∧
  (∀ b ∈ s.batches, b.id < s.counter ∧ b.createdAt < s.counter)

/-- Referential integrity of download_history_to_asset: every link points
to an existing batch. -/
def NoDangling (s : LedgerState) : Prop :=
  ∀ l ∈ s.links, l.downloadHistoryId ∈ s.batches.map (fun b => b.id)

/-- Two asset rows that agree on every column except isSuggestive. -/
def eqUpToSuggestive (a b : AssetRow) : Prop :=
  a.id = b.id ∧ a.name = b.name ∧ a.gameId = b.gameId ∧ a.categoryId = b.categoryId ∧
  a.downloadCount = b.downloadCount ∧ a.viewCount = b.viewCount ∧ a.size = b.size ∧
  a.extension = b.extension ∧ a.createdAt = b.createdAt ∧ a.uploadedBy = b.uploadedBy ∧
  a.status = b.status

/-- Two database states that agree everywhere except on the isSuggestive
flags of their asset rows. -/
def dbEqUpToSuggestive (d d' : Db) : Prop :=
  d.games = d'.games ∧ d.categories = d'.categories ∧ d.tags = d'.tags ∧
  d.assetToTag = d'.assetToTag ∧ List.Forall₂ eqUpToSuggestive d.assets d'.assets

/-! ## Concrete fixtures used by witnesses and counterexamples -/

def gameG1 : GameRow := ⟨"g1", "genshin-impact", "Genshin Impact"⟩
def catC1 : CategoryRow := ⟨"c1", "splash-art", "Splash Art"⟩
def tagOfficial : TagRow := ⟨"t1", "official", "Official", none⟩
def tagFourK : TagRow := ⟨"t2", "4k", "4K", none⟩
def assetPending : AssetRow :=
  ⟨"a1", "Alpha", "g1", "c1", 0, 0, 10, "png", 5, false, "u1", ModStatus.pending⟩
def assetSugg : AssetRow :=
  ⟨"a2", "Beta", "g1", "c1", 3, 7, 10, "png", 6, true, "u1", ModStatus.approved⟩
def assetPlain : AssetRow :=
  ⟨"a3", "Gamma", "g1", "c1", 1, 2, 10, "png", 7, false, "u1", ModStatus.approved⟩

/-- A query with every filter absent and the handler defaults applied. -/
def defaultQuery : SearchQuery :=
  ⟨none, none, none, none, 0, SortKey.uploadDate, SortDir.desc⟩

/-- A paged query with every filter absent and the handler defaults. -/
def defaultPagedQuery : PagedQuery :=
  ⟨none, none, none, none, 1, none⟩

/-! ## Helper lemmas -/

theorem cdnHas_iff (c : CdnState) (p : String) : cdnHas c p = true ↔ p ∈ c.objects := by
  simp only [cdnHas]
  exact List.elem_iff

theorem assetPath_ne_limboPath (i e : String) : assetPath i e ≠ limboPath i e := by
  intro h
  have hheads : (some 'a') = (some 'l') := by
    calc some 'a' = (assetPath i e).data.head? := rfl
    _ = (limboPath i e).data.head? := by rw [h]
    _ = some 'l' := rfl
  simp at hheads

/-! ## Claim C3 -/

/-- Claim C3 (code bug): on approve, the status update is committed BEFORE
the quarantine file is checked, so when the file is missing the handler
answers 404 Asset file not found while the stored status has already been
flipped to approved.  Concrete run: a pending asset whose quarantine object
is absent from the blob store. -/
theorem approve_flips_status_before_file_check :
    (AssetApproveRoute ⟨[gameG1], [catC1], [], [assetPending], []⟩ ⟨[]⟩ "a1").httpStatus = 404 ∧
    (AssetApproveRoute ⟨[gameG1], [catC1], [], [assetPending], []⟩ ⟨[]⟩ "a1").message =
      some "Asset file not found" ∧
    (AssetApproveRoute ⟨[gameG1], [catC1], [], [assetPending], []⟩ ⟨[]⟩ "a1").db.assets =
      [{ assetPending with status := ModStatus.approved }] := by
  decide

/-! ## Claim C7 -/

/-- Claim C7 (counterexample): denying a pending asset through the deny
handler of approval-queue.ts does NOT delete the asset row (it is kept with
status denied) and does NOT delete the quarantine object. -/
theorem deny_keeps_row_and_file :
    (AssetDenyRoute ⟨[gameG1], [catC1], [], [assetPending], []⟩
        ⟨[limboPath "a1" "png"]⟩ "a1").db.assets =
      [{ assetPending with status := ModStatus.denied }] ∧
    (AssetDenyRoute ⟨[gameG1], [catC1], [], [assetPending], []⟩
        ⟨[limboPath "a1" "png"]⟩ "a1").cdn.objects = [limboPath "a1" "png"] := by
  decide

/-- Claim C7 (amended): a non-admin upload gets status pending and the
limbo storage path; approving an asset whose quarantine file exists answers
200, stores the public object, deletes the quarantine object and leaves
every row with that id approved; denying through approval-queue.ts answers
200 and keeps the row (with status denied) and the blob store untouched,
while the part 009 deny revision deletes the row and the quarantine
object. -/
theorem upload_approve_deny_lifecycle
    (role aid ext : String) (hrole : role ≠ "admin")
    (d : Db) (cdn : CdnState) (id : String) (fa : AssetRow)
    (hfind : d.assets.find? (fun a => a.id == id) = some fa)
    (hfile : cdnHas cdn (limboPath fa.id fa.extension) = true) :
    determineAssetStatus role = ModStatus.pending ∧
    getStoragePath aid ext (role == "admin") = limboPath aid ext ∧
    ((AssetApproveRoute d cdn id).httpStatus = 200 ∧
      cdnHas (AssetApproveRoute d cdn id).cdn (assetPath fa.id fa.extension) = true ∧
      cdnHas (AssetApproveRoute d cdn id).cdn (limboPath fa.id fa.extension) = false ∧
      (∀ a ∈ (AssetApproveRoute d cdn id).db.assets, a.id = id → a.status = ModStatus.approved)) ∧
    ((AssetDenyRoute d cdn id).httpStatus = 200 ∧
      (AssetDenyRoute d cdn id).cdn = cdn ∧
      (AssetDenyRoute d cdn id).db.assets.length = d.assets.length ∧
      ({ fa with status := ModStatus.denied } : AssetRow) ∈ (AssetDenyRoute d cdn id).db.assets) ∧
    ((AssetDenyRouteP9 d cdn id).httpStatus = 200 ∧
      (∀ a ∈ (AssetDenyRouteP9 d cdn id).db.assets, a.id ≠ id) ∧
      cdnHas (AssetDenyRouteP9 d cdn id).cdn (limboPath fa.id fa.extension) = false) := by
  have hro : (role == "admin") = false := by
    simp only [beq_eq_false_iff_ne, ne_eq]
    exact hrole
  have hfa : fa ∈ d.assets := List.mem_of_find?_eq_some hfind
  have hfaid' : fa.id = id := by
    have hfaid := List.find?_some hfind
    simpa using hfaid
  have hfaid : (fa.id == id) = true := by simp [hfaid']
  have hAL : (assetPath fa.id fa.extension == limboPath fa.id fa.extension) = false := by
    simp only [beq_eq_false_iff_ne, ne_eq]
    exact assetPath_ne_limboPath fa.id fa.extension
  refine ⟨?_, ?_, ⟨?_, ?_, ?_, ?_⟩, ⟨?_, ?_, ?_, ?_⟩, ⟨?_, ?_, ?_⟩⟩
  · simp [determineAssetStatus, hro]
  · simp only [getStoragePath, hro, if_neg, Bool.false_eq_true, not_false_iff]
    rfl
  · simp [AssetApproveRoute, hfind, hfile]
  · simp only [AssetApproveRoute, hfind, hfile, if_pos]
    rw [cdnHas_iff]
    simp only [cdnDelete, cdnPut, List.mem_filter]
    refine ⟨List.mem_cons_self _ _, ?_⟩
    simp [hAL]
  · simp only [AssetApproveRoute, hfind, hfile, if_pos]
    rw [Bool.eq_false_iff, ne_eq, cdnHas_iff]
    intro hmem
    simp only [cdnDelete, cdnPut, List.mem_filter] at hmem
    simp at hmem
  · intro a ha haid
    simp only [AssetApproveRoute, hfind, hfile, if_pos] at ha
    rcases List.mem_map.mp ha with ⟨x, hx, hxe⟩
    by_cases hxi : (x.id == id) = true
    · rw [if_pos hxi] at hxe
      rw [← hxe]
    · rw [if_neg (by simpa using hxi)] at hxe
      rw [← hxe] at haid
      exact absurd (by simpa using haid) (by simpa using hxi)
  · simp [AssetDenyRoute, hfind]
  · simp [AssetDenyRoute, hfind]
  · simp [AssetDenyRoute, hfind]
  · simp only [AssetDenyRoute, hfind]
    have : ({ fa with status := ModStatus.denied } : AssetRow) =
        (fun a => if (a.id == id) = true then { a with status := ModStatus.denied } else a) fa := by
      simp [hfaid]
    rw [this]
    exact List.mem_map_of_mem _ hfa
  · simp [AssetDenyRouteP9, hfind]
  · intro a ha
    simp only [AssetDenyRouteP9, hfind] at ha
    rcases List.mem_filter.mp ha with ⟨_, hcond⟩
    simpa using hcond
  · simp only [AssetDenyRouteP9, hfind]
    rw [Bool.eq_false_iff, ne_eq, cdnHas_iff]
    intro hmem
    simp only [cdnDelete, List.mem_filter] at hmem
    simp at hmem

/-- Claim C7 witness: the lifecycle theorem applied to a contributor role
and a concrete pending asset whose quarantine object exists. -/
theorem upload_approve_deny_lifecycle_witness :
    determineAssetStatus "contributor" = ModStatus.pending ∧
    getStoragePath "a9" "png" ("contributor" == "admin") = limboPath "a9" "png" ∧
    ((AssetApproveRoute ⟨[gameG1], [catC1], [], [assetPending], []⟩
        ⟨[limboPath "a1" "png"]⟩ "a1").httpStatus = 200 ∧
      cdnHas (AssetApproveRoute ⟨[gameG1], [catC1], [], [assetPending], []⟩
        ⟨[limboPath "a1" "png"]⟩ "a1").cdn (assetPath assetPending.id assetPending.extension) = true ∧
      cdnHas (AssetApproveRoute ⟨[gameG1], [catC1], [], [assetPending], []⟩
        ⟨[limboPath "a1" "png"]⟩ "a1").cdn (limboPath assetPending.id assetPending.extension) = false ∧
      (∀ a ∈ (AssetApproveRoute ⟨[gameG1], [catC1], [], [assetPending], []⟩
        ⟨[limboPath "a1" "png"]⟩ "a1").db.assets, a.id = "a1" → a.status = ModStatus.approved)) ∧
    ((AssetDenyRoute ⟨[gameG1], [catC1], [], [assetPending], []⟩
        ⟨[limboPath "a1" "png"]⟩ "a1").httpStatus = 200 ∧
      (AssetDenyRoute ⟨[gameG1], [catC1], [], [assetPending], []⟩
        ⟨[limboPath "a1" "png"]⟩ "a1").cdn = ⟨[limboPath "a1" "png"]⟩ ∧
      (AssetDenyRoute ⟨[gameG1], [catC1], [], [assetPending], []⟩
        ⟨[limboPath "a1" "png"]⟩ "a1").db.assets.length =
        (⟨[gameG1], [catC1], [], [assetPending], []⟩ : Db).assets.length ∧
      ({ assetPending with status := ModStatus.denied } : AssetRow) ∈
        (AssetDenyRoute ⟨[gameG1], [catC1], [], [assetPending], []⟩
          ⟨[limboPath "a1" "png"]⟩ "a1").db.assets) ∧
    ((AssetDenyRouteP9 ⟨[gameG1], [catC1], [], [assetPending], []⟩
        ⟨[limboPath "a1" "png"]⟩ "a1").httpStatus = 200 ∧
      (∀ a ∈ (AssetDenyRouteP9 ⟨[gameG1], [catC1], [], [assetPending], []⟩
        ⟨[limboPath "a1" "png"]⟩ "a1").db.assets, a.id ≠ "a1") ∧
      cdnHas (AssetDenyRouteP9 ⟨[gameG1], [catC1], [], [assetPending], []⟩
        ⟨[limboPath "a1" "png"]⟩ "a1").cdn (limboPath assetPending.id assetPending.extension) = false) :=
  upload_approve_deny_lifecycle "contributor" "a9" "png" (by decide)
    ⟨[gameG1], [catC1], [], [assetPending], []⟩ ⟨[limboPath "a1" "png"]⟩ "a1" assetPending
    (by decide) (by decide)

/-! ## Claim C9 -/

/-- Claim C9: saving an asset the user already saved answers 400 and leaves
the saved_asset table unchanged (no duplicate row), and unsaving an asset
the user never saved answers 404 and changes nothing. -/
theorem save_conflict_and_unsave_notfound (s : SaveState) (u a b fid : String) (now : Nat)
    (hasset : ∃ x ∈ s.assets, x.id = a)
    (hsaved : ∃ r ∈ s.saved, r.userId = u ∧ r.assetId = a)
    (hnever : ∀ r ∈ s.saved, ¬(r.userId = u ∧ r.assetId = b)) :
    UserSaveAssetRoute s u a fid now = (400, s) ∧
    UserUnsaveAssetRoute s u b = (404, s) := by
  obtain ⟨x, hx, hxid⟩ := hasset
  obtain ⟨r, hr, hru, hra⟩ := hsaved
  constructor
  · have h1 : ((s.assets.filter (fun y => y.id == a)).isEmpty) = false := by
      rw [List.isEmpty_eq_false_iff_exists_mem]
      exact ⟨x, List.mem_filter.mpr ⟨hx, by simp [hxid]⟩⟩
    have h2 : ((s.saved.filter (fun q => q.userId == u && q.assetId == a)).isEmpty) = false := by
      rw [List.isEmpty_eq_false_iff_exists_mem]
      exact ⟨r, List.mem_filter.mpr ⟨hr, by simp [hru, hra]⟩⟩
    simp [UserSaveAssetRoute, h1, h2]
  · have h3 : ((s.saved.filter (fun q => q.userId == u && q.assetId == b)).isEmpty) = true := by
      simp only [List.isEmpty_iff, List.filter_eq_nil_iff]
      intro q hq hcond
      exact hnever q hq (by simpa using hcond)
    simp [UserUnsaveAssetRoute, h3]

/-- Claim C9 witness: a user who saved asset a1 but never a3. -/
theorem save_conflict_and_unsave_notfound_witness :
    UserSaveAssetRoute ⟨[assetPending], [⟨"s1", "u1", "a1", 0⟩]⟩ "u1" "a1" "s2" 9 =
      (400, ⟨[assetPending], [⟨"s1", "u1", "a1", 0⟩]⟩) ∧
    UserUnsaveAssetRoute ⟨[assetPending], [⟨"s1", "u1", "a1", 0⟩]⟩ "u1" "a3" =
      (404, ⟨[assetPending], [⟨"s1", "u1", "a1", 0⟩]⟩) :=
  save_conflict_and_unsave_notfound ⟨[assetPending], [⟨"s1", "u1", "a1", 0⟩]⟩ "u1" "a1" "a3" "s2" 9
    (by decide) (by decide) (by decide)

/-! ## Claim C10 -/

/-- Claim C10: the comma-separated tags field is split, trimmed and
truncated to 20 entries; attachTags appends one link per requested id that
exists in the tag table (at most 20), drops unknown ids silently, and
always succeeds. -/
theorem upload_attaches_at_most_twenty_valid_tags
    (tagTable : List TagRow) (links : List AssetTagRow) (assetId : String)
    (raw : Option String) (hnd : (tagTable.map (fun t => t.id)).Nodup) :
    (parseTags raw).length ≤ 20 ∧
    ∃ added : List AssetTagRow,
      attachTags tagTable links assetId (parseTags raw) = links ++ added ∧
      added.length ≤ 20 ∧
      (∀ l ∈ added, l.assetId = assetId ∧ l.tagId ∈ parseTags raw ∧
        ∃ t ∈ tagTable, t.id = l.tagId) ∧
      (∀ i ∈ parseTags raw, (∀ t ∈ tagTable, t.id ≠ i) → ∀ l ∈ added, l.tagId ≠ i) := by
  have hlen : (parseTags raw).length ≤ 20 := by
    unfold parseTags
    match raw with
    | none => simp
    | some s =>
        by_cases hs : (jsTrim s == "") = true
        · simp [hs]
        · simp only [hs, Bool.false_eq_true, if_neg, not_false_iff]
          exact List.length_take_le 20 _
  refine ⟨hlen, ?_⟩
  unfold attachTags
  by_cases he : (parseTags raw).isEmpty = true
  · refine ⟨[], by simp [he], by simp, by simp, by simp⟩
  · simp only [he, Bool.false_eq_true, if_neg, not_false_iff]
    set V := (tagTable.filter (fun t => (parseTags raw).contains t.id)).map (fun t => t.id) with hV
    by_cases hve : V.isEmpty = true
    · refine ⟨[], by simp [hve], by simp, by simp, by simp⟩
    · simp only [hve, Bool.false_eq_true, if_neg, not_false_iff]
      refine ⟨V.map (fun tid => ⟨assetId, tid⟩), rfl, ?_, ?_, ?_⟩
      · rw [List.length_map]
        have hnodup : V.Nodup := by
          rw [hV]
          exact hnd.sublist ((List.filter_sublist tagTable).map (fun t => t.id))
        have hsub : ∀ v ∈ V, v ∈ parseTags raw := by
          intro v hv
          rw [hV] at hv
          rcases List.mem_map.mp hv with ⟨t, ht, hte⟩
          rcases List.mem_filter.mp ht with ⟨_, hcond⟩
          rw [← hte]
          exact List.elem_iff.mp hcond
        exact le_trans ((List.subperm_of_subset hnodup hsub).length_le) hlen
      · intro l hl
        rcases List.mem_map.mp hl with ⟨tid, htid, hle⟩
        rw [hV] at htid
        rcases List.mem_map.mp htid with ⟨t, ht, hte⟩
        rcases List.mem_filter.mp ht with ⟨htt, hcond⟩
        refine ⟨by rw [← hle], ?_, ⟨t, htt, by rw [hte, ← hle]⟩⟩
        rw [← hle]
        simp only
        rw [← hte]
        exact List.elem_iff.mp hcond
      · intro i hi hno l hl hlid
        rcases List.mem_map.mp hl with ⟨tid, htid, hle⟩
        rw [hV] at htid
        rcases List.mem_map.mp htid with ⟨t, ht, hte⟩
        rcases List.mem_filter.mp ht with ⟨htt, _⟩
        apply hno t htt
        rw [hte, ← hlid, ← hle]

/-- Claim C10 witness: a raw field with 22 entries, one unknown id. -/
theorem upload_attaches_at_most_twenty_valid_tags_witness :
    (parseTags (some "t1,t2,bogus")).length ≤ 20 ∧
    ∃ added : List AssetTagRow,
      attachTags [tagOfficial, tagFourK] [] "a1" (parseTags (some "t1,t2,bogus")) = [] ++ added ∧
      added.length ≤ 20 ∧
      (∀ l ∈ added, l.assetId = "a1" ∧ l.tagId ∈ parseTags (some "t1,t2,bogus") ∧
        ∃ t ∈ [tagOfficial, tagFourK], t.id = l.tagId) ∧
      (∀ i ∈ parseTags (some "t1,t2,bogus"),
        (∀ t ∈ [tagOfficial, tagFourK], t.id ≠ i) → ∀ l ∈ added, l.tagId ≠ i) :=
  upload_attaches_at_most_twenty_valid_tags [tagOfficial, tagFourK] [] "a1"
    (some "t1,t2,bogus") (by decide)

/-! ## Claim C6 -/

/-- Counting fact behind the validation check of POST /asset/history: with
a duplicate-free asset table, the row count of select-where-id-in equals
the request length exactly when the requested ids are duplicate-free and
all present. -/
theorem filter_contains_length_iff (table ids : List String) (hnd : table.Nodup) :
    (table.filter (fun a => ids.contains a)).length = ids.length ↔
      (ids.Nodup ∧ ∀ i ∈ ids, i ∈ table) := by
  have hF : (table.filter (fun a => ids.contains a)).Nodup :=
    hnd.sublist (List.filter_sublist table)
  have hFsub : ∀ x ∈ table.filter (fun a => ids.contains a), x ∈ ids := by
    intro x hx
    exact List.elem_iff.mp (List.mem_filter.mp hx).2
  have h1 : (table.filter (fun a => ids.contains a)).toFinset ⊆ ids.toFinset := by
    intro x hx
    rw [List.mem_toFinset] at hx ⊢
    exact hFsub x hx
  constructor
  · intro h
    have hcardF : (table.filter (fun a => ids.contains a)).toFinset.card = ids.length := by
      rw [List.toFinset_card_of_nodup hF, h]
    have hcle : ids.toFinset.card ≤ ids.length := ids.toFinset_card_le
    have hle := Finset.card_le_card h1
    have hcard_ids : ids.toFinset.card = ids.length := by omega
    have hnodup_ids : ids.Nodup := by
      have hdl : ids.dedup.length = ids.length := by
        rw [← List.card_toFinset]
        exact hcard_ids
      have hde : ids.dedup = ids := ids.dedup_sublist.eq_of_length_le (by omega)
      rw [← hde]
      exact ids.nodup_dedup
    refine ⟨hnodup_ids, ?_⟩
    have heq : (table.filter (fun a => ids.contains a)).toFinset = ids.toFinset :=
      Finset.eq_of_subset_of_card_le h1 (by omega)
    intro i hi
    have hiF : i ∈ (table.filter (fun a => ids.contains a)).toFinset := by
      rw [heq, List.mem_toFinset]
      exact hi
    rw [List.mem_toFinset] at hiF
    exact (List.mem_filter.mp hiF).1
  · rintro ⟨hnodup, hsub⟩
    have hperm : (table.filter (fun a => ids.contains a)).Perm ids := by
      apply List.perm_of_nodup_nodup_toFinset_eq hF hnodup
      ext x
      simp only [List.mem_toFinset, List.mem_filter]
      constructor
      · intro hx
        exact List.elem_iff.mp hx.2
      · intro hx
        exact ⟨hsub x hx, List.elem_iff.mpr hx⟩
    exact hperm.length_eq

/-- Claim C6 (counterexample): the 400 answer carries the fixed message
Invalid asset IDs, which does not list the offending id zzz; and a request
whose ids all exist but contain a duplicate is also rejected, so recording
does not happen exactly when every requested id exists. -/
theorem recordBatch_fixed_message_and_duplicate_reject :
    (recordBatch ⟨["a1", "a2"], [], [], 0⟩ "u1" ["a1", "a2", "zzz"] =
      RecordResult.badRequest ⟨["a1", "a2"], [], [], 0⟩ "Invalid asset IDs") ∧
    containsSub "zzz" "Invalid asset IDs" = false ∧
    (∀ i ∈ (["a1", "a1"] : List String), i ∈ (["a1", "a2"] : List String)) ∧
    (recordBatch ⟨["a1", "a2"], [], [], 0⟩ "u1" ["a1", "a1"] =
      RecordResult.badRequest ⟨["a1", "a2"], [], [], 0⟩ "Invalid asset IDs") := by
  decide

/-- Claim C6 (amended): a history batch with at least one id (the body
schema demands a nonempty array) is recorded exactly when its ids are
duplicate-free and every one exists in the asset table; otherwise the whole
batch is rejected with a 400 whose message is the fixed string Invalid
asset IDs (the invalid ids are not listed) and the state is untouched
(zero history rows and zero link rows are written). -/
theorem recordBatch_rejects_whole_batch (s : LedgerState) (u : String) (ids : List String)
    (hnd : s.assetTable.Nodup) (hne : ids ≠ []) :
    ((∃ s' hid, recordBatch s u ids = RecordResult.ok s' hid) ↔
      (ids.Nodup ∧ ∀ i ∈ ids, i ∈ s.assetTable)) ∧
    (∀ s' m, recordBatch s u ids = RecordResult.badRequest s' m →
      s' = s ∧ m = "Invalid asset IDs") := by
  by_cases hc : ((s.assetTable.filter (fun a => ids.contains a)).length != ids.length) = true
  · have hne' : ¬ ((s.assetTable.filter (fun a => ids.contains a)).length = ids.length) := by
      simpa using hc
    constructor
    · constructor
      · rintro ⟨s', hid, hok⟩
        unfold recordBatch at hok
        rw [if_pos hc] at hok
        exact absurd hok (by simp)
      · intro hrhs
        exact absurd ((filter_contains_length_iff s.assetTable ids hnd).mpr hrhs) hne'
    · intro s' m hbad
      unfold recordBatch at hbad
      rw [if_pos hc] at hbad
      refine ⟨?_, ?_⟩
      · cases hbad
        rfl
      · cases hbad
        rfl
  · have heq : (s.assetTable.filter (fun a => ids.contains a)).length = ids.length := by
      simpa using hc
    constructor
    · constructor
      · intro _
        exact (filter_contains_length_iff s.assetTable ids hnd).mp heq
      · intro _
        unfold recordBatch
        rw [if_neg hc]
        by_cases hcnt : 500 ≤ (userBatches s u).length
        · rw [if_pos hcnt]
          exact ⟨_, _, rfl⟩
        · rw [if_neg hcnt]
          exact ⟨_, _, rfl⟩
    · intro s' m hbad
      unfold recordBatch at hbad
      rw [if_neg hc] at hbad
      by_cases hcnt : 500 ≤ (userBatches s u).length
      · rw [if_pos hcnt] at hbad
        exact absurd hbad (by simp)
      · rw [if_neg hcnt] at hbad
        exact absurd hbad (by simp)

/-- Claim C6 witness: the amended validation applied to a singleton valid
batch against a two-row asset table. -/
theorem recordBatch_rejects_whole_batch_witness :
    ((∃ s' hid, recordBatch ⟨["a1", "a2"], [], [], 0⟩ "u1" ["a1"] = RecordResult.ok s' hid) ↔
      ((["a1"] : List String).Nodup ∧
        ∀ i ∈ (["a1"] : List String), i ∈ (⟨["a1", "a2"], [], [], 0⟩ : LedgerState).assetTable)) ∧
    (∀ s' m, recordBatch ⟨["a1", "a2"], [], [], 0⟩ "u1" ["a1"] = RecordResult.badRequest s' m →
      s' = (⟨["a1", "a2"], [], [], 0⟩ : LedgerState) ∧ m = "Invalid asset IDs") :=
  recordBatch_rejects_whole_batch ⟨["a1", "a2"], [], [], 0⟩ "u1" ["a1"] (by decide) (by decide)

/-! ## Claim C5 -/

/-- Every asset of the returned page satisfies the WHERE clause. -/
theorem mem_searchPage (d : Db) (q : SearchQuery) (b : AssetRow)
    (hb : b ∈ searchPage d q) : b ∈ searchFiltered d q ∧ matchesSearch d q b = true := by
  have hfetch : b ∈ searchFetch d q := by
    unfold searchPage at hb
    by_cases hn : searchHasNext d q = true
    · rw [if_pos hn] at hb
      exact List.mem_of_mem_take hb
    · rw [if_neg hn] at hb
      exact hb
  have hsorted : b ∈ searchSorted d q := by
    unfold searchFetch at hfetch
    exact List.mem_of_mem_drop (List.mem_of_mem_take hfetch)
  have hfil : b ∈ searchFiltered d q := by
    unfold searchSorted at hsorted
    exact (List.perm_insertionSort _ _).mem_iff.mp hsorted
  exact ⟨hfil, List.of_mem_filter hfil⟩

/-- Claim C5 (counterexample): the page revision of the search applies no
moderation-status constraint, so a public search returns a pending asset. -/
theorem paged_search_returns_pending :
    AssetSearchRoutePaged ⟨[gameG1], [catC1], [], [assetPending], []⟩ defaultPagedQuery =
      PagedResponse.ok [(assetPending, gameG1, catC1)] 1 20 1 1 false false ∧
    assetPending.status = ModStatus.pending := by
  decide

/-- Claim C5 (amended): the offset revision of GET /asset/search conjoins
status = approved unconditionally, so every asset of a successful response
is approved; the page revision of the same endpoint applies no status
filter and also returns pending or denied assets. -/
theorem search_returns_only_approved (d : Db) (q : SearchQuery) (assets : List AssetRow)
    (off : Int) (hn : Bool) (b : AssetRow)
    (hok : AssetSearchRoute d q = SearchResponse.ok assets off hn) (hb : b ∈ assets) :
    b.status = ModStatus.approved := by
  unfold AssetSearchRoute at hok
  by_cases hoff : q.offset < 0
  · rw [if_pos hoff] at hok
    exact absurd hok (by simp)
  · rw [if_neg hoff] at hok
    have hassets : assets = searchPage d q := by
      cases hok
      rfl
    rw [hassets] at hb
    have hm := (mem_searchPage d q b hb).2
    unfold matchesSearch at hm
    simp only [Bool.and_eq_true, beq_iff_eq] at hm
    exact hm.2

/-- Claim C5 witness: a concrete database whose only approved asset comes
back from the route, with its status read off the theorem. -/
theorem search_returns_only_approved_witness :
    assetPlain.status = ModStatus.approved :=
  search_returns_only_approved ⟨[gameG1], [catC1], [], [assetPlain], []⟩ defaultQuery
    [assetPlain] 0 false assetPlain (by decide) (by decide)

/-! ## Claim C4 -/

/-- The WHERE clause of the offset search never reads isSuggestive: two
rows that agree on every other column and two databases that differ only
in suggestive flags are matched identically. -/
theorem matchesSearch_eqUpToSuggestive (d d' : Db) (q : SearchQuery)
    (h : dbEqUpToSuggestive d d') (a a' : AssetRow) (ha : eqUpToSuggestive a a') :
    matchesSearch d q a = matchesSearch d' q a' := by
  obtain ⟨hg, hc, ht, hl, _⟩ := h
  obtain ⟨h1, h2, h3, h4, _, _, _, _, _, _, h11⟩ := ha
  simp only [matchesSearch, nameCond, gameCond, categoryCond, tagCond, tagIntersectCond,
    resolveGameIds, resolveCategoryIds, resolveTagIds]
  rw [hg, hc, ht, hl, h1, h2, h3, h4, h11]

/-- filter respects a row relation along which the predicates agree. -/
theorem forall₂_filter_congr {R : α → β → Prop} {p : α → Bool} {p' : β → Bool}
    {l : List α} {l' : List β} (h : List.Forall₂ R l l')
    (hp : ∀ a b, R a b → p a = p' b) :
    List.Forall₂ R (l.filter p) (l'.filter p') := by
  induction h with
  | nil => exact List.Forall₂.nil
  | cons hR htail ih =>
      rename_i a b l l'
      by_cases hpa : p a = true
      · rw [List.filter_cons_of_pos hpa, List.filter_cons_of_pos (by rw [← hp a b hR]; exact hpa)]
        exact List.Forall₂.cons hR ih
      · rw [List.filter_cons_of_neg (by simpa using hpa),
          List.filter_cons_of_neg (by rw [← hp a b hR]; simpa using hpa)]
        exact ih

/-- orderedInsert respects a row relation along which the order agrees. -/
theorem forall₂_orderedInsert {R : α → α → Prop} {r : α → α → Prop} [DecidableRel r]
    (hrel : ∀ a a' b b', R a a' → R b b' → (r a b ↔ r a' b'))
    {a a' : α} (ha : R a a') :
    ∀ {l l' : List α}, List.Forall₂ R l l' →
      List.Forall₂ R (List.orderedInsert r a l) (List.orderedInsert r a' l') := by
  intro l l' h
  induction h with
  | nil => exact List.Forall₂.cons ha List.Forall₂.nil
  | cons hR htail ih =>
      rename_i b b' m m'
      by_cases hr : r a b
      · rw [List.orderedInsert, List.orderedInsert, if_pos hr,
          if_pos ((hrel a a' b b' ha hR).mp hr)]
        exact List.Forall₂.cons ha (List.Forall₂.cons hR htail)
      · rw [List.orderedInsert, List.orderedInsert, if_neg hr,
          if_neg (fun hcon => hr ((hrel a a' b b' ha hR).mpr hcon))]
        exact List.Forall₂.cons hR ih

/-- insertionSort respects a row relation along which the order agrees. -/
theorem forall₂_insertionSort {R : α → α → Prop} {r : α → α → Prop} [DecidableRel r]
    (hrel : ∀ a a' b b', R a a' → R b b' → (r a b ↔ r a' b'))
    {l l' : List α} (h : List.Forall₂ R l l') :
    List.Forall₂ R (List.insertionSort r l) (List.insertionSort r l') := by
  induction h with
  | nil => exact List.Forall₂.nil
  | cons hR htail ih =>
      exact forall₂_orderedInsert hrel hR ih

/-- The sort relation of the search never reads isSuggestive. -/
theorem searchLe_eqUpToSuggestive (k : SortKey) (dir : SortDir)
    (a a' b b' : AssetRow) (ha : eqUpToSuggestive a a') (hb : eqUpToSuggestive b b') :
    searchLe k dir a b ↔ searchLe k dir a' b' := by
  obtain ⟨_, ha2, _, _, ha5, ha6, _, _, ha9, _, _⟩ := ha
  obtain ⟨_, hb2, _, _, hb5, hb6, _, _, hb9, _, _⟩ := hb
  cases dir <;> cases k <;>
    simp only [searchLe, keyLeAsc, ha2, ha5, ha6, ha9, hb2, hb5, hb6, hb9]

/-- Related rows have equal ids, so related pages list the same ids. -/
theorem forall₂_map_id {l l' : List AssetRow}
    (h : List.Forall₂ eqUpToSuggestive l l') :
    l.map (fun a => a.id) = l'.map (fun a => a.id) := by
  induction h with
  | nil => rfl
  | cons hR htail ih =>
      simp only [List.map_cons, ih, hR.1]

/-- Claim C4 (counterexample): the offset search reads no caller identity
or jurisdiction at all, and an approved asset flagged suggestive is
returned to every caller when it matches the filters. -/
theorem search_returns_suggestive_asset :
    AssetSearchRoute ⟨[gameG1], [catC1], [], [assetSugg], []⟩ defaultQuery =
      SearchResponse.ok [assetSugg] 0 false ∧
    assetSugg.isSuggestive = true := by
  decide

/-- Claim C4 (amended): the search route performs no region-based or
role-based suppression: its result is a function of the query and the
tables alone (there is no caller parameter), and flipping isSuggestive
flags changes neither the ids of the returned page nor hasNext — suggestive
assets are returned like any others, the flag is merely echoed per row. -/
theorem search_ignores_suggestive_flag (d d' : Db) (q : SearchQuery)
    (h : dbEqUpToSuggestive d d') :
    (searchPage d q).map (fun a => a.id) = (searchPage d' q).map (fun a => a.id) ∧
    searchHasNext d q = searchHasNext d' q := by
  have hfil : List.Forall₂ eqUpToSuggestive (searchFiltered d q) (searchFiltered d' q) :=
    forall₂_filter_congr h.2.2.2.2
      (fun a b hR => matchesSearch_eqUpToSuggestive d d' q h a b hR)
  have hsort : List.Forall₂ eqUpToSuggestive (searchSorted d q) (searchSorted d' q) :=
    forall₂_insertionSort (searchLe_eqUpToSuggestive q.sortKey q.sortDir) hfil
  have hfetch : List.Forall₂ eqUpToSuggestive (searchFetch d q) (searchFetch d' q) :=
    List.forall₂_take 21 (List.forall₂_drop q.offset.toNat hsort)
  have hnext : searchHasNext d q = searchHasNext d' q := by
    unfold searchHasNext
    rw [hfetch.length_eq]
  refine ⟨?_, hnext⟩
  unfold searchPage
  rw [hnext]
  by_cases hn : searchHasNext d' q = true
  · rw [if_pos hn, if_pos hn]
    exact forall₂_map_id (List.forall₂_take 20 hfetch)
  · rw [if_neg hn, if_neg hn]
    exact forall₂_map_id hfetch

/-- Claim C4 witness: two single-asset databases differing only in the
suggestive flag produce the same page ids and the same hasNext. -/
theorem search_ignores_suggestive_flag_witness :
    (searchPage ⟨[gameG1], [catC1], [], [assetSugg], []⟩ defaultQuery).map (fun a => a.id) =
      (searchPage ⟨[gameG1], [catC1], [], [{ assetSugg with isSuggestive := false }], []⟩
        defaultQuery).map (fun a => a.id) ∧
    searchHasNext ⟨[gameG1], [catC1], [], [assetSugg], []⟩ defaultQuery =
      searchHasNext ⟨[gameG1], [catC1], [], [{ assetSugg with isSuggestive := false }], []⟩
        defaultQuery :=
  search_ignores_suggestive_flag
    ⟨[gameG1], [catC1], [], [assetSugg], []⟩
    ⟨[gameG1], [catC1], [], [{ assetSugg with isSuggestive := false }], []⟩
    defaultQuery
    ⟨rfl, rfl, rfl, rfl,
      List.Forall₂.cons
        ⟨rfl, rfl, rfl, rfl, rfl, rfl, rfl, rfl, rfl, rfl, rfl⟩
        List.Forall₂.nil⟩

/-! ## Claim C1 -/

/-- A duplicate-free list that sits inside a list of no greater length
exhausts it. -/
theorem mem_of_nodup_subset_length_le {α : Type} [DecidableEq α] {S T : List α}
    (hnd : S.Nodup) (hsub : ∀ x ∈ S, x ∈ T) (hlen : T.length ≤ S.length) :
    ∀ t ∈ T, t ∈ S := by
  have h1 : S.toFinset ⊆ T.toFinset := by
    intro x hx
    rw [List.mem_toFinset] at hx ⊢
    exact hsub x hx
  have hcS : S.toFinset.card = S.length := List.toFinset_card_of_nodup hnd
  have hcT : T.toFinset.card ≤ T.length := T.toFinset_card_le
  have heq : S.toFinset = T.toFinset := Finset.eq_of_subset_of_card_le h1 (by omega)
  intro t ht
  have h2 : t ∈ T.toFinset := List.mem_toFinset.mpr ht
  rw [← heq] at h2
  exact List.mem_toFinset.mp h2

/-- A list of somes loses nothing to reduceOption. -/
theorem reduceOption_length_of_isSome {α : Type} {l : List (Option α)}
    (h : ∀ x ∈ l, x.isSome = true) : l.reduceOption.length = l.length := by
  induction l with
  | nil => rfl
  | cons x rest ih =>
      cases x with
      | none =>
          have hnone := h none (List.mem_cons_self _ _)
          simp at hnone
      | some a =>
          rw [List.reduceOption_cons_of_some]
          simp only [List.length_cons]
          rw [ih (fun y hy => h y (List.mem_cons_of_mem _ hy))]

/-- Every row of the page revision comes from the joined base query and
satisfies its WHERE clause. -/
theorem mem_pagedPage (d : Db) (pq : PagedQuery) (r : AssetRow × GameRow × CategoryRow)
    (hr : r ∈ pagedPage d pq) : r ∈ pagedJoined d ∧ pagedMatches d pq r = true := by
  have hrows : r ∈ pagedRows d pq :=
    List.mem_of_mem_drop (List.mem_of_mem_take hr)
  exact ⟨(List.mem_filter.mp hrows).1, (List.mem_filter.mp hrows).2⟩

/-- Claim C1: when every requested tag slug resolves, the resolved id list
has exactly the requested size, and both search revisions return only
assets linked to every requested tag: in the offset revision every page
asset is linked to each resolved tag id, and in the page revision every
page asset is linked to a tag carrying each requested slug, hence (slugs
being unique) to every requested tag.  Assets linked to a proper subset
fail the count-distinct condition and are excluded. -/
theorem tag_filter_and_semantics (d : Db) (q : SearchQuery) (pq : PagedQuery)
    (hres : ∀ s ∈ splitSlugs q.tags,
      (fromEntries (d.tags.map (fun t => (t.slug, t.id))) s).isSome = true)
    (hslugs : (d.tags.map (fun t => t.slug)).Nodup) :
    (resolveTagIds d (splitSlugs q.tags)).length = (splitSlugs q.tags).length ∧
    (∀ a ∈ searchPage d q, ∀ tid ∈ resolveTagIds d (splitSlugs q.tags),
      ∃ l ∈ d.assetToTag, l.assetId = a.id ∧ l.tagId = tid) ∧
    (∀ r ∈ pagedPage d pq, ∀ t ∈ d.tags, t.slug ∈ splitSlugs pq.tags →
      ∃ l ∈ d.assetToTag, l.assetId = r.1.id ∧ l.tagId = t.id) := by
  refine ⟨?_, ?_, ?_⟩
  · unfold resolveTagIds
    rw [reduceOption_length_of_isSome (by
      intro x hx
      rcases List.mem_map.mp hx with ⟨s, hs, hxe⟩
      rw [← hxe]
      exact hres s hs)]
    rw [List.length_map]
  · intro a ha tid htid
    have hm := (mem_searchPage d q a ha).2
    unfold matchesSearch at hm
    simp only [Bool.and_eq_true] at hm
    have htc : tagCond d q.tags a = true := hm.1.2
    unfold tagCond at htc
    by_cases hemp : (splitSlugs q.tags).isEmpty = true
    · rw [List.isEmpty_iff.mp hemp] at htid
      exact absurd htid (by simp [resolveTagIds])
    · rw [if_neg (by simpa using hemp)] at htc
      by_cases hide : (resolveTagIds d (splitSlugs q.tags)).isEmpty = true
      · rw [List.isEmpty_iff.mp hide] at htid
        exact absurd htid (by simp)
      · rw [if_neg (by simpa using hide)] at htc
        unfold tagIntersectCond at htc
        set tagIds := resolveTagIds d (splitSlugs q.tags) with hT
        set L := ((d.assetToTag.filter
            (fun l => l.assetId == a.id && tagIds.contains l.tagId)).map
          (fun l => l.tagId)).dedup with hL
        have hlen : L.length = tagIds.length := by simpa using htc
        have hLsub : ∀ x ∈ L, x ∈ tagIds := by
          intro x hx
          rw [hL] at hx
          rcases List.mem_map.mp (List.mem_dedup.mp hx) with ⟨l, hl, hle⟩
          have hcond := (List.mem_filter.mp hl).2
          simp only [Bool.and_eq_true] at hcond
          rw [← hle]
          exact List.elem_iff.mp hcond.2
        have hndL : L.Nodup := by
          rw [hL]
          exact List.nodup_dedup _
        have hall := mem_of_nodup_subset_length_le hndL hLsub (le_of_eq hlen.symm)
        have htidL : tid ∈ L := hall tid htid
        rw [hL] at htidL
        rcases List.mem_map.mp (List.mem_dedup.mp htidL) with ⟨l, hl, hle⟩
        have hcond := (List.mem_filter.mp hl).2
        simp only [Bool.and_eq_true, beq_iff_eq] at hcond
        exact ⟨l, (List.mem_filter.mp hl).1, hcond.1, hle⟩
  · intro r hr t ht htslug
    have hm := (mem_pagedPage d pq r hr).2
    unfold pagedMatches at hm
    simp only [Bool.and_eq_true] at hm
    have htc := hm.2
    by_cases hemp : (splitSlugs pq.tags).isEmpty = true
    · rw [List.isEmpty_iff.mp hemp] at htslug
      exact absurd htslug (by simp)
    · rw [if_neg (by simpa using hemp)] at htc
      unfold tagSlugIntersectCond at htc
      set ts := splitSlugs pq.tags with hts
      set S := ((((d.assetToTag.flatMap (fun l =>
            (d.tags.filter (fun t' => t'.id == l.tagId)).map (fun t' => (l, t')))).filter
          (fun p => p.1.assetId == r.1.id && ts.contains p.2.slug)).map
        (fun p => p.2.slug)).dedup) with hS
      have hlen : S.length = ts.length := by simpa using htc
      have hSsub : ∀ x ∈ S, x ∈ ts := by
        intro x hx
        rw [hS] at hx
        rcases List.mem_map.mp (List.mem_dedup.mp hx) with ⟨p, hp, hpe⟩
        have hcond := (List.mem_filter.mp hp).2
        simp only [Bool.and_eq_true] at hcond
        rw [← hpe]
        exact List.elem_iff.mp hcond.2
      have hndS : S.Nodup := by
        rw [hS]
        exact List.nodup_dedup _
      have hall := mem_of_nodup_subset_length_le hndS hSsub (le_of_eq hlen.symm)
      have hslugS : t.slug ∈ S := hall t.slug htslug
      rw [hS] at hslugS
      rcases List.mem_map.mp (List.mem_dedup.mp hslugS) with ⟨p, hp, hpe⟩
      have hpj := (List.mem_filter.mp hp).1
      have hcond := (List.mem_filter.mp hp).2
      simp only [Bool.and_eq_true, beq_iff_eq] at hcond
      rcases List.mem_flatMap.mp hpj with ⟨l, hl, hpl⟩
      rcases List.mem_map.mp hpl with ⟨t', ht', hpe'⟩
      have ht'tags : t' ∈ d.tags := (List.mem_filter.mp ht').1
      have ht'id : t'.id = l.tagId := by
        have := (List.mem_filter.mp ht').2
        simpa using this
      have hp1 : p.1 = l := by rw [← hpe']
      have hp2 : p.2 = t' := by rw [← hpe']
      have htt' : t' = t := by
        apply List.inj_on_of_nodup_map hslugs ht'tags ht
        rw [← hp2, hpe]
      refine ⟨l, hl, ?_, ?_⟩
      · rw [← hp1]
        exact hcond.1
      · rw [← htt', ht'id]

/-- Claim C1 witness: an asset linked to both requested tags is on the
page; the theorem instantiated at a concrete two-tag query. -/
theorem tag_filter_and_semantics_witness :
    (resolveTagIds ⟨[gameG1], [catC1], [tagOfficial, tagFourK], [assetPlain],
        [⟨"a3", "t1"⟩, ⟨"a3", "t2"⟩]⟩
      (splitSlugs (some "official,4k"))).length =
      (splitSlugs (some "official,4k")).length ∧
    (∀ a ∈ searchPage ⟨[gameG1], [catC1], [tagOfficial, tagFourK], [assetPlain],
        [⟨"a3", "t1"⟩, ⟨"a3", "t2"⟩]⟩
        ⟨none, some "official,4k", none, none, 0, SortKey.uploadDate, SortDir.desc⟩,
      ∀ tid ∈ resolveTagIds ⟨[gameG1], [catC1], [tagOfficial, tagFourK], [assetPlain],
        [⟨"a3", "t1"⟩, ⟨"a3", "t2"⟩]⟩ (splitSlugs (some "official,4k")),
      ∃ l ∈ [(⟨"a3", "t1"⟩ : AssetTagRow), ⟨"a3", "t2"⟩],
        l.assetId = a.id ∧ l.tagId = tid) ∧
    (∀ r ∈ pagedPage ⟨[gameG1], [catC1], [tagOfficial, tagFourK], [assetPlain],
        [⟨"a3", "t1"⟩, ⟨"a3", "t2"⟩]⟩
        ⟨none, some "official,4k", none, none, 1, none⟩,
      ∀ t ∈ [tagOfficial, tagFourK], t.slug ∈ splitSlugs (some "official,4k") →
      ∃ l ∈ [(⟨"a3", "t1"⟩ : AssetTagRow), ⟨"a3", "t2"⟩],
        l.assetId = r.1.id ∧ l.tagId = t.id) := by
  have hq : (⟨none, some "official,4k", none, none, 0, SortKey.uploadDate,
      SortDir.desc⟩ : SearchQuery).tags = some "official,4k" := rfl
  exact tag_filter_and_semantics
    ⟨[gameG1], [catC1], [tagOfficial, tagFourK], [assetPlain],
      [⟨"a3", "t1"⟩, ⟨"a3", "t2"⟩]⟩
    ⟨none, some "official,4k", none, none, 0, SortKey.uploadDate, SortDir.desc⟩
    ⟨none, some "official,4k", none, none, 1, none⟩
    (by decide) (by decide)

/-! ## Claim C8 -/

/-- Within a duplicate-free list, the window of n rows at offset o and the
window of m rows at offset o + n never share an element. -/
theorem disjoint_slices {α : Type} {l : List α} (h : l.Nodup) (o n m : Nat) :
    List.Disjoint ((l.drop o).take n) ((l.drop (o + n)).take m) := by
  have hJ : (l.drop o).Nodup := h.sublist (List.drop_sublist o l)
  have hsplit : (l.drop o).take n ++ (l.drop o).drop n = l.drop o :=
    List.take_append_drop n (l.drop o)
  have hdisj : List.Disjoint ((l.drop o).take n) ((l.drop o).drop n) := by
    rw [← hsplit] at hJ
    exact (List.nodup_append.mp hJ).2.2
  intro x hx hx'
  apply hdisj hx
  have hdd : l.drop (o + n) = (l.drop o).drop n := (List.drop_drop n o l).symm
  rw [hdd] at hx'
  exact List.mem_of_mem_take hx'

/-- The ids of the ordered filtered rows inherit the primary-key
uniqueness of the asset table. -/
theorem searchSorted_ids_nodup (d : Db) (q : SearchQuery)
    (hids : (d.assets.map (fun a => a.id)).Nodup) :
    ((searchSorted d q).map (fun a => a.id)).Nodup := by
  have h1 : ((searchFiltered d q).map (fun a => a.id)).Sublist
      (d.assets.map (fun a => a.id)) :=
    (List.filter_sublist d.assets).map (fun a => a.id)
  have h2 : ((searchSorted d q).map (fun a => a.id)).Perm
      ((searchFiltered d q).map (fun a => a.id)) := by
    unfold searchSorted
    exact (List.perm_insertionSort _ _).map _
  exact h2.nodup_iff.mpr (hids.sublist h1)

/-- With unique keys, a select-where-key-equals returns at most one row. -/
theorem filter_beq_length_le {α β : Type} [BEq β] [LawfulBEq β] (f : α → β) (v : β)
    (l : List α) (h : (l.map f).Nodup) : (l.filter (fun x => f x == v)).length ≤ 1 := by
  induction l with
  | nil => simp
  | cons x xs ih =>
      simp only [List.map_cons, List.nodup_cons] at h
      by_cases hfx : (f x == v) = true
      · rw [List.filter_cons, if_pos hfx]
        have hnil : xs.filter (fun y => f y == v) = [] := by
          rw [List.filter_eq_nil_iff]
          intro y hy hcond
          have h1 : f y = v := eq_of_beq hcond
          have h2 : f x = v := eq_of_beq hfx
          have hmem : f x ∈ xs.map f := by
            rw [h2, ← h1]
            exact List.mem_map_of_mem f hy
          exact h.1 hmem
        rw [hnil]
        simp
      · rw [List.filter_cons, if_neg hfx]
        exact ih h.2

/-- The asset ids of the inner-joined rows form a sublist of the asset
table ids: each asset contributes at most one joined tuple when game and
category ids are unique. -/
theorem joined_ids_sublist (games : List GameRow) (cats : List CategoryRow)
    (hg : (games.map (fun g => g.id)).Nodup) (hc : (cats.map (fun c => c.id)).Nodup)
    (assets : List AssetRow) :
    ((assets.flatMap (fun a =>
        (games.filter (fun g => g.id == a.gameId)).flatMap (fun g =>
          (cats.filter (fun c => c.id == a.categoryId)).map (fun c => (a, g, c))))).map
      (fun r => r.1.id)).Sublist (assets.map (fun a => a.id)) := by
  induction assets with
  | nil => simp
  | cons a rest ih =>
      have hstep : (a :: rest).flatMap (fun a =>
          (games.filter (fun g => g.id == a.gameId)).flatMap (fun g =>
            (cats.filter (fun c => c.id == a.categoryId)).map (fun c => (a, g, c)))) =
          ((games.filter (fun g => g.id == a.gameId)).flatMap (fun g =>
            (cats.filter (fun c => c.id == a.categoryId)).map (fun c => (a, g, c)))) ++
          rest.flatMap (fun a =>
            (games.filter (fun g => g.id == a.gameId)).flatMap (fun g =>
              (cats.filter (fun c => c.id == a.categoryId)).map (fun c => (a, g, c)))) := rfl
      rw [hstep, List.map_append, List.map_cons]
      have hblock : (((games.filter (fun g => g.id == a.gameId)).flatMap (fun g =>
            (cats.filter (fun c => c.id == a.categoryId)).map (fun c => (a, g, c)))).map
          (fun r => r.1.id)) = [] ∨
          (((games.filter (fun g => g.id == a.gameId)).flatMap (fun g =>
            (cats.filter (fun c => c.id == a.categoryId)).map (fun c => (a, g, c)))).map
          (fun r => r.1.id)) = [a.id] := by
        cases hG : games.filter (fun g => g.id == a.gameId) with
        | nil => left; simp
        | cons g gs =>
            have hGlen := filter_beq_length_le (fun g => g.id) a.gameId games hg
            rw [hG] at hGlen
            simp only [List.length_cons] at hGlen
            have hgs : gs = [] := List.length_eq_zero.mp (by omega)
            subst hgs
            cases hC : cats.filter (fun c => c.id == a.categoryId) with
            | nil => left; simp
            | cons c cs =>
                have hClen := filter_beq_length_le (fun c => c.id) a.categoryId cats hc
                rw [hC] at hClen
                simp only [List.length_cons] at hClen
                have hcs : cs = [] := List.length_eq_zero.mp (by omega)
                subst hcs
                right
                simp
      rcases hblock with hb | hb
      · rw [hb, List.nil_append]
        exact ih.cons a.id
      · rw [hb, List.singleton_append]
        exact ih.cons₂ a.id

/-- The asset ids of the filtered joined rows are duplicate-free. -/
theorem pagedRows_ids_nodup (d : Db) (pq : PagedQuery)
    (hids : (d.assets.map (fun a => a.id)).Nodup)
    (hg : (d.games.map (fun g => g.id)).Nodup)
    (hc : (d.categories.map (fun c => c.id)).Nodup) :
    ((pagedRows d pq).map (fun r => r.1.id)).Nodup := by
  have h1 : ((pagedRows d pq).map (fun r => r.1.id)).Sublist
      ((pagedJoined d).map (fun r => r.1.id)) :=
    (List.filter_sublist (pagedJoined d)).map (fun r => r.1.id)
  have h2 : ((pagedJoined d).map (fun r => r.1.id)).Sublist
      (d.assets.map (fun a => a.id)) :=
    joined_ids_sublist d.games d.categories hg hc d.assets
  exact (hids.sublist h2).sublist h1

/-- Claim C8: in the offset revision hasNext is true exactly when a 21st
matching row exists past the offset, and the pages at consecutive offsets
never share an asset id; in the page revision hasNext = page < totalPages
is true exactly when a limit-plus-first row exists past the offset
(page - 1) * limit, and consecutive pages never share an asset id. -/
theorem pagination_has_next_and_no_repeat (d : Db) (q : SearchQuery) (pq : PagedQuery)
    (hoff : 0 ≤ q.offset)
    (hids : (d.assets.map (fun a => a.id)).Nodup)
    (hg : (d.games.map (fun g => g.id)).Nodup)
    (hc : (d.categories.map (fun c => c.id)).Nodup)
    (hlim : 1 ≤ pagedLimit pq)
    (hpage : 1 ≤ pq.page) :
    (searchHasNext d q = true ↔ q.offset.toNat + 20 < (searchFiltered d q).length) ∧
    List.Disjoint ((searchPage d q).map (fun a => a.id))
      ((searchPage d { q with offset := q.offset + 20 }).map (fun a => a.id)) ∧
    ((decide (pq.page < (pagedTotalPages d pq : Int))) = true ↔
      pagedOffset pq + pagedLimit pq < pagedTotal d pq) ∧
    List.Disjoint ((pagedPage d pq).map (fun r => r.1.id))
      ((pagedPage d { pq with page := pq.page + 1 }).map (fun r => r.1.id)) := by
  have hFlen : (searchSorted d q).length = (searchFiltered d q).length :=
    (List.perm_insertionSort _ _).length_eq
  have hpn1 : 1 ≤ pq.page.toNat := by omega
  have hoffeq : pagedOffset pq + pagedLimit pq = pq.page.toNat * pagedLimit pq := by
    unfold pagedOffset
    rw [Nat.sub_mul, Nat.one_mul]
    have hle : pagedLimit pq ≤ pq.page.toNat * pagedLimit pq :=
      Nat.le_mul_of_pos_left (pagedLimit pq) (by omega)
    omega
  refine ⟨?_, ?_, ?_, ?_⟩
  · unfold searchHasNext searchFetch
    rw [decide_eq_true_eq]
    rw [List.length_take, List.length_drop, hFlen]
    omega
  · have hsame : searchSorted d { q with offset := q.offset + 20 } = searchSorted d q := rfl
    have hI : ((searchSorted d q).map (fun a => a.id)).Nodup := searchSorted_ids_nodup d q hids
    have ho' : ({ q with offset := q.offset + 20 } : SearchQuery).offset.toNat =
        q.offset.toNat + 20 := by
      show (q.offset + 20).toNat = q.offset.toNat + 20
      rw [Int.toNat_add hoff (by norm_num)]
      rfl
    by_cases hn : searchHasNext d q = true
    · have hL : (searchPage d q).map (fun a => a.id) =
          (((searchSorted d q).map (fun a => a.id)).drop q.offset.toNat).take 20 := by
        unfold searchPage
        rw [if_pos hn]
        unfold searchFetch
        rw [List.map_take, List.map_take, List.map_drop, List.take_take]
        norm_num
      have hRsub : ∀ x ∈ (searchPage d { q with offset := q.offset + 20 }).map (fun a => a.id),
          x ∈ (((searchSorted d q).map (fun a => a.id)).drop (q.offset.toNat + 20)).take 21 := by
        intro x hx
        have hfe : ∀ y ∈ (searchPage d { q with offset := q.offset + 20 }),
            y ∈ searchFetch d { q with offset := q.offset + 20 } := by
          intro y hy
          unfold searchPage at hy
          by_cases hn' : searchHasNext d { q with offset := q.offset + 20 } = true
          · rw [if_pos hn'] at hy
            exact List.mem_of_mem_take hy
          · rw [if_neg hn'] at hy
            exact hy
        rcases List.mem_map.mp hx with ⟨y, hy, hye⟩
        have hyf := hfe y hy
        unfold searchFetch at hyf
        rw [hsame, ho'] at hyf
        rw [← hye]
        have : y.id ∈ (((searchSorted d q).drop (q.offset.toNat + 20)).take 21).map
            (fun a => a.id) := List.mem_map_of_mem _ hyf
        rw [List.map_take, List.map_drop] at this
        exact this
      rw [hL]
      intro x hx hx'
      exact disjoint_slices hI q.offset.toNat 20 21 hx (hRsub x hx')
    · have hlen : (searchSorted d q).length ≤ q.offset.toNat + 20 := by
        unfold searchHasNext searchFetch at hn
        rw [decide_eq_true_eq] at hn
        rw [List.length_take, List.length_drop] at hn
        omega
      have hempty : searchPage d { q with offset := q.offset + 20 } = [] := by
        have hfempty : searchFetch d { q with offset := q.offset + 20 } = [] := by
          unfold searchFetch
          rw [hsame, ho', List.drop_eq_nil_of_le hlen]
          rfl
        unfold searchPage
        rw [hfempty]
        unfold searchHasNext
        rw [hfempty]
        simp
      rw [hempty]
      intro x _ hx'
      simp at hx'
  · rw [decide_eq_true_eq]
    have hpq : pq.page = (pq.page.toNat : Int) := (Int.toNat_of_nonneg (by omega)).symm
    rw [hpq, Int.ofNat_lt]
    unfold pagedTotalPages
    rw [Nat.lt_iff_add_one_le, Nat.le_div_iff_mul_le (by omega : 0 < pagedLimit pq),
      Nat.succ_mul]
    rw [← hoffeq]
    constructor
    · intro h
      omega
    · intro h
      omega
  · have hsame : pagedRows d { pq with page := pq.page + 1 } = pagedRows d pq := rfl
    have hlim' : pagedLimit { pq with page := pq.page + 1 } = pagedLimit pq := rfl
    have hoff' : pagedOffset { pq with page := pq.page + 1 } =
        pagedOffset pq + pagedLimit pq := by
      unfold pagedOffset
      rw [hlim']
      have hp1 : ({ pq with page := pq.page + 1 } : PagedQuery).page.toNat =
          pq.page.toNat + 1 := by
        show (pq.page + 1).toNat = pq.page.toNat + 1
        rw [Int.toNat_add (by omega) (by norm_num)]
        rfl
      rw [hp1]
      have hoe := hoffeq
      unfold pagedOffset at hoe
  -- (pn + 1 - 1) * limit = pn * limit = (pn - 1) * limit + limit
      simp only [Nat.add_sub_cancel]
      omega
    have hK : ((pagedRows d pq).map (fun r => r.1.id)).Nodup :=
      pagedRows_ids_nodup d pq hids hg hc
    have hL : (pagedPage d pq).map (fun r => r.1.id) =
        (((pagedRows d pq).map (fun r => r.1.id)).drop (pagedOffset pq)).take
          (pagedLimit pq) := by
      unfold pagedPage
      rw [List.map_take, List.map_drop]
    have hR : (pagedPage d { pq with page := pq.page + 1 }).map (fun r => r.1.id) =
        (((pagedRows d pq).map (fun r => r.1.id)).drop
          (pagedOffset pq + pagedLimit pq)).take (pagedLimit pq) := by
      unfold pagedPage
      rw [hsame, hlim', hoff', List.map_take, List.map_drop]
    rw [hL, hR]
    exact disjoint_slices hK (pagedOffset pq) (pagedLimit pq) (pagedLimit pq)

/-- Claim C8 witness: the pagination facts instantiated on a one-asset
database at offset 0 and page 1. -/
theorem pagination_has_next_and_no_repeat_witness :
    (searchHasNext ⟨[gameG1], [catC1], [], [assetPlain], []⟩ defaultQuery = true ↔
      (defaultQuery.offset.toNat + 20 <
        (searchFiltered ⟨[gameG1], [catC1], [], [assetPlain], []⟩ defaultQuery).length)) ∧
    List.Disjoint
      ((searchPage ⟨[gameG1], [catC1], [], [assetPlain], []⟩ defaultQuery).map
        (fun a => a.id))
      ((searchPage ⟨[gameG1], [catC1], [], [assetPlain], []⟩
        { defaultQuery with offset := defaultQuery.offset + 20 }).map (fun a => a.id)) ∧
    ((decide (defaultPagedQuery.page <
        (pagedTotalPages ⟨[gameG1], [catC1], [], [assetPlain], []⟩ defaultPagedQuery : Int)))
        = true ↔
      pagedOffset defaultPagedQuery + pagedLimit defaultPagedQuery <
        pagedTotal ⟨[gameG1], [catC1], [], [assetPlain], []⟩ defaultPagedQuery) ∧
    List.Disjoint
      ((pagedPage ⟨[gameG1], [catC1], [], [assetPlain], []⟩ defaultPagedQuery).map
        (fun r => r.1.id))
      ((pagedPage ⟨[gameG1], [catC1], [], [assetPlain], []⟩
        { defaultPagedQuery with page := defaultPagedQuery.page + 1 }).map
        (fun r => r.1.id)) :=
  pagination_has_next_and_no_repeat ⟨[gameG1], [catC1], [], [assetPlain], []⟩
    defaultQuery defaultPagedQuery (by decide) (by decide) (by decide) (by decide)
    (by decide) (by decide)

/-! ## Claim C2 -/

/-- Two filters commute. -/
theorem filter_swap {α : Type} (p q : α → Bool) (l : List α) :
    (l.filter p).filter q = (l.filter q).filter p := by
  rw [List.filter_filter, List.filter_filter]
  exact List.filter_congr (fun x _ => Bool.and_comm (q x) (p x))

/-- Deleting the ids of the first t rows of the createdAt-ordered user
batches leaves, up to permutation, exactly the remaining ordered rows. -/
theorem evict_survivors (ub : List HistoryBatch)
    (hnd : (ub.map (fun b => b.id)).Nodup) (t : Nat) :
    (ub.filter (fun b =>
        !((((List.insertionSort createdAsc ub).take t).map (fun b => b.id)).contains b.id))).Perm
      ((List.insertionSort createdAsc ub).drop t) := by
  set sorted := List.insertionSort createdAsc ub with hsorted
  set dels := (sorted.take t).map (fun b => b.id) with hdels
  have hperm : sorted.Perm ub := List.perm_insertionSort _ _
  have hnd_sorted : (sorted.map (fun b => b.id)).Nodup :=
    ((hperm.map (fun b => b.id)).nodup_iff).mpr hnd
  have h1 : (ub.filter (fun b => !(dels.contains b.id))).Perm
      (sorted.filter (fun b => !(dels.contains b.id))) :=
    (hperm.filter _).symm
  have hdisj : List.Disjoint dels ((sorted.drop t).map (fun b => b.id)) := by
    have hsplit : dels ++ (sorted.drop t).map (fun b => b.id) =
        sorted.map (fun b => b.id) := by
      rw [hdels, ← List.map_append, List.take_append_drop]
    rw [← hsplit] at hnd_sorted
    exact (List.nodup_append.mp hnd_sorted).2.2
  have h3 : (sorted.take t).filter (fun b => !(dels.contains b.id)) = [] := by
    rw [List.filter_eq_nil_iff]
    intro b hb hcond
    rw [Bool.not_eq_true', Bool.eq_false_iff] at hcond
    apply hcond
    rw [hdels]
    exact List.elem_iff.mpr (List.mem_map_of_mem _ hb)
  have h4 : (sorted.drop t).filter (fun b => !(dels.contains b.id)) = sorted.drop t := by
    rw [List.filter_eq_self]
    intro b hb
    rw [Bool.not_eq_true', Bool.eq_false_iff]
    intro hcon
    exact hdisj (List.elem_iff.mp hcon) (List.mem_map_of_mem _ hb)
  have h2 : sorted.filter (fun b => !(dels.contains b.id)) = sorted.drop t := by
    conv_lhs => rw [← List.take_append_drop t sorted]
    rw [List.filter_append, h3, h4, List.nil_append]
  rw [h2] at h1
  exact h1

theorem nodup_append_singleton {α : Type} {l : List α} {a : α}
    (h : l.Nodup) (ha : a ∉ l) : (l ++ [a]).Nodup := by
  rw [List.nodup_append]
  refine ⟨h, List.nodup_singleton a, ?_⟩
  intro x hx hxa
  rw [List.mem_singleton] at hxa
  subst hxa
  exact ha hx

/-- The user batches after the insert statements: the old ones plus the
fresh row. -/
theorem userBatches_insertBatch (s : LedgerState) (u : String) (ids : List String) :
    userBatches (insertBatch s u ids) u =
      userBatches s u ++ [{ id := s.counter, userId := u, createdAt := s.counter }] := by
  unfold userBatches insertBatch
  rw [List.filter_append]
  congr 1
  simp

/-- The user batches after the eviction statements: the old ones minus the
deleted ids. -/
theorem userBatches_evictOld (s : LedgerState) (u : String) :
    userBatches (evictOld s u) u =
      (userBatches s u).filter (fun b => !((evictIds s u).contains b.id)) := by
  unfold userBatches evictOld
  exact filter_swap _ _ _

/-- The insert statements preserve the primary-key and time-sorting
facts: the fresh id and timestamp exceed every stored one. -/
theorem insertBatch_wf (s : LedgerState) (u : String) (ids : List String)
    (hwf : LedgerWF s) : LedgerWF (insertBatch s u ids) := by
  obtain ⟨h1, h2, h3⟩ := hwf
  unfold LedgerWF insertBatch
  refine ⟨?_, ?_, ?_⟩
  · simp only [List.map_append, List.map_cons, List.map_nil]
    apply nodup_append_singleton h1
    intro hmem
    rcases List.mem_map.mp hmem with ⟨b, hb, hbe⟩
    have hlt := (h3 b hb).1
    omega
  · simp only [List.map_append, List.map_cons, List.map_nil]
    apply nodup_append_singleton h2
    intro hmem
    rcases List.mem_map.mp hmem with ⟨b, hb, hbe⟩
    have hlt := (h3 b hb).2
    omega
  · intro b hb
    rcases List.mem_append.mp hb with hb | hb
    · have hlt := h3 b hb
      show b.id < s.counter + 1 ∧ b.createdAt < s.counter + 1
      omega
    · rw [List.mem_singleton] at hb
      subst hb
      show s.counter < s.counter + 1 ∧ s.counter < s.counter + 1
      omega

/-- The insert statements add no dangling link: the new links point to the
new batch. -/
theorem insertBatch_nodangling (s : LedgerState) (u : String) (ids : List String)
    (hnd : NoDangling s) : NoDangling (insertBatch s u ids) := by
  unfold NoDangling insertBatch
  intro l hl
  simp only at hl
  rcases List.mem_append.mp hl with hl | hl
  · simp only [List.map_append]
    exact List.mem_append_left _ (hnd l hl)
  · rcases List.mem_map.mp hl with ⟨a, _, hae⟩
    simp only [List.map_append]
    apply List.mem_append_right
    rw [← hae]
    simp

/-- The eviction statements preserve the stored-row facts. -/
theorem evictOld_wf (s : LedgerState) (u : String) (hwf : LedgerWF s) :
    LedgerWF (evictOld s u) := by
  obtain ⟨h1, h2, h3⟩ := hwf
  unfold LedgerWF evictOld
  refine ⟨?_, ?_, ?_⟩
  · exact h1.sublist ((List.filter_sublist _).map _)
  · exact h2.sublist ((List.filter_sublist _).map _)
  · intro b hb
    exact h3 b (List.mem_of_mem_filter hb)

/-- The eviction statements delete the links of every deleted batch, so no
dangling link remains. -/
theorem evictOld_nodangling (s : LedgerState) (u : String) (hnd : NoDangling s) :
    NoDangling (evictOld s u) := by
  unfold NoDangling evictOld
  intro l hl
  have hlold := List.mem_of_mem_filter hl
  have hcond := List.of_mem_filter hl
  rcases List.mem_map.mp (hnd l hlold) with ⟨b, hb, hbe⟩
  have hPb : (!((evictIds s u).contains b.id)) = true := by
    rw [hbe]
    exact hcond
  rw [← hbe]
  exact List.mem_map_of_mem _ (List.mem_filter.mpr ⟨hb, hPb⟩)

/-- When the user holds at least 500 batches, the eviction leaves exactly
499 of them. -/
theorem evictOld_count (s : LedgerState) (u : String) (hwf : LedgerWF s)
    (hcnt : 500 ≤ (userBatches s u).length) :
    (userBatches (evictOld s u) u).length = 499 := by
  rw [userBatches_evictOld]
  have hub_nodup : ((userBatches s u).map (fun b => b.id)).Nodup :=
    hwf.1.sublist ((List.filter_sublist s.batches).map (fun b => b.id))
  have hids : evictIds s u =
      ((List.insertionSort createdAsc (userBatches s u)).take
        ((userBatches s u).length - 499)).map (fun b => b.id) := rfl
  rw [hids]
  have hsurv := evict_survivors (userBatches s u) hub_nodup
    ((userBatches s u).length - 499)
  rw [hsurv.length_eq, List.length_drop,
    (List.perm_insertionSort createdAsc (userBatches s u)).length_eq]
  omega

/-- A user batch strictly newer than some other user batch survives the
eviction while the count respects the 500 cap: the single deleted row is
the oldest one. -/
theorem evictOld_survives (s : LedgerState) (u : String) (hwf : LedgerWF s)
    (hle : (userBatches s u).length ≤ 500)
    (b : HistoryBatch) (hb : b ∈ s.batches) (hbu : b.userId = u)
    (holder : ∃ y ∈ userBatches s u, y.createdAt < b.createdAt) :
    b ∈ (evictOld s u).batches := by
  unfold evictOld
  simp only
  apply List.mem_filter.mpr
  refine ⟨hb, ?_⟩
  rw [Bool.not_eq_true', Bool.eq_false_iff]
  intro hcon
  have hbid : b.id ∈ evictIds s u := List.elem_iff.mp hcon
  by_cases hcnt : 500 ≤ (userBatches s u).length
  · have hcnt500 : (userBatches s u).length = 500 := le_antisymm hle hcnt
    have ht : (userBatches s u).length - 499 = 1 := by omega
    unfold evictIds at hbid
    rw [ht] at hbid
    have hslen : (List.insertionSort createdAsc (userBatches s u)).length = 500 := by
      rw [(List.perm_insertionSort createdAsc (userBatches s u)).length_eq, hcnt500]
    cases hs : List.insertionSort createdAsc (userBatches s u) with
    | nil =>
        rw [hs] at hslen
        simp at hslen
    | cons hd tl =>
        rw [hs] at hbid
        simp only [List.take_succ_cons, List.take_zero, List.map_cons, List.map_nil] at hbid
        rw [List.mem_singleton] at hbid
        have hbub : b ∈ userBatches s u := List.mem_filter.mpr ⟨hb, by simp [hbu]⟩
        have hhdub : hd ∈ userBatches s u := by
          have hhd : hd ∈ List.insertionSort createdAsc (userBatches s u) := by
            rw [hs]
            exact List.mem_cons_self _ _
          exact (List.perm_insertionSort createdAsc (userBatches s u)).mem_iff.mp hhd
        have hub_nodup : ((userBatches s u).map (fun x => x.id)).Nodup :=
          hwf.1.sublist ((List.filter_sublist s.batches).map (fun x => x.id))
        have hbhd : b = hd := List.inj_on_of_nodup_map hub_nodup hbub hhdub hbid
        obtain ⟨y, hy, hylt⟩ := holder
        have hymem : y ∈ List.insertionSort createdAsc (userBatches s u) :=
          (List.perm_insertionSort createdAsc (userBatches s u)).mem_iff.mpr hy
        rw [hs] at hymem
        have hsorted : List.Sorted createdAsc
            (List.insertionSort createdAsc (userBatches s u)) :=
          List.sorted_insertionSort createdAsc (userBatches s u)
        rw [hs] at hsorted
        have hhy : hd.createdAt ≤ y.createdAt := by
          rcases List.mem_cons.mp hymem with hyh | hyt
          · rw [hyh]
          · exact List.rel_of_sorted_cons hsorted y hyt
        rw [hbhd] at hylt
        omega
  · have ht : (userBatches s u).length - 499 = 0 := by omega
    unfold evictIds at hbid
    rw [ht] at hbid
    simp at hbid

/-- One successful recordBatch call: the bundle of state facts every later
argument needs. -/
theorem recordBatch_step (s : LedgerState) (u : String) (ids : List String)
    (hval : (s.assetTable.filter (fun a => ids.contains a)).length = ids.length)
    (hwf : LedgerWF s) :
    ∃ s', recordBatch s u ids = RecordResult.ok s' s.counter ∧
      s'.assetTable = s.assetTable ∧
      s'.counter = s.counter + 1 ∧
      LedgerWF s' ∧
      (NoDangling s → NoDangling s') ∧
      (userBatches s' u).length = min ((userBatches s u).length + 1) 500 ∧
      (⟨s.counter, u, s.counter⟩ : HistoryBatch) ∈ s'.batches ∧
      (∀ b ∈ s.batches, b.userId = u →
        ((userBatches s u).length < 500 ∨
          ((userBatches s u).length ≤ 500 ∧
            ∃ y ∈ userBatches s u, y.createdAt < b.createdAt)) →
        b ∈ s'.batches) := by
  have hc : ¬(((s.assetTable.filter (fun a => ids.contains a)).length != ids.length) = true) := by
    rw [hval]
    simp
  by_cases hcnt : 500 ≤ (userBatches s u).length
  · refine ⟨insertBatch (evictOld s u) u ids, ?_, rfl, rfl, ?_, ?_, ?_, ?_, ?_⟩
    · unfold recordBatch
      rw [if_neg hc, if_pos hcnt]
      exact rfl
    · exact insertBatch_wf (evictOld s u) u ids (evictOld_wf s u hwf)
    · intro hnd
      exact insertBatch_nodangling _ _ _ (evictOld_nodangling s u hnd)
    · rw [userBatches_insertBatch (evictOld s u) u ids, List.length_append]
      have hec : (evictOld s u).counter = s.counter := rfl
      rw [evictOld_count s u hwf hcnt]
      simp only [List.length_cons, List.length_nil]
      omega
    · show _ ∈ (evictOld s u).batches ++
        [{ id := (evictOld s u).counter, userId := u, createdAt := (evictOld s u).counter }]
      apply List.mem_append_right
      simp only [List.mem_singleton]
      rfl
    · intro b hb hbu hdisj
      have hble : (userBatches s u).length ≤ 500 ∧
          ∃ y ∈ userBatches s u, y.createdAt < b.createdAt := by
        rcases hdisj with h | h
        · exact absurd h (by omega)
        · exact h
      have hbev : b ∈ (evictOld s u).batches :=
        evictOld_survives s u hwf hble.1 b hb hbu hble.2
      show b ∈ (evictOld s u).batches ++
        [{ id := (evictOld s u).counter, userId := u, createdAt := (evictOld s u).counter }]
      exact List.mem_append_left _ hbev
  · refine ⟨insertBatch s u ids, ?_, rfl, rfl, ?_, ?_, ?_, ?_, ?_⟩
    · unfold recordBatch
      rw [if_neg hc, if_neg hcnt]
    · exact insertBatch_wf s u ids hwf
    · intro hnd
      exact insertBatch_nodangling s u ids hnd
    · rw [userBatches_insertBatch s u ids, List.length_append]
      simp only [List.length_cons, List.length_nil]
      omega
    · show _ ∈ s.batches ++ [{ id := s.counter, userId := u, createdAt := s.counter }]
      apply List.mem_append_right
      simp
    · intro b hb _ _
      show b ∈ s.batches ++ [{ id := s.counter, userId := u, createdAt := s.counter }]
      exact List.mem_append_left _ hb

/-- Facts preserved across any number of successful recordBatch calls. -/
theorem runBatches_invariant (s : LedgerState) (u : String) (reqs : Nat → List String)
    (hwf : LedgerWF s) (hnd : NoDangling s)
    (hvalid : ∀ k, (s.assetTable.filter (fun a => (reqs k).contains a)).length =
      (reqs k).length) :
    ∀ k, (runBatches s u reqs k).assetTable = s.assetTable ∧
      (runBatches s u reqs k).counter = s.counter + k ∧
      LedgerWF (runBatches s u reqs k) ∧
      NoDangling (runBatches s u reqs k) := by
  intro k
  induction k with
  | zero => exact ⟨rfl, rfl, hwf, hnd⟩
  | succ k ih =>
      obtain ⟨iht, ihc, ihw, ihn⟩ := ih
      have hvk : ((runBatches s u reqs k).assetTable.filter
          (fun a => (reqs k).contains a)).length = (reqs k).length := by
        rw [iht]
        exact hvalid k
      obtain ⟨s', heq, ht', hc', hw', hn', _, _, _⟩ :=
        recordBatch_step (runBatches s u reqs k) u (reqs k) hvk ihw
      have hrun : runBatches s u reqs (k + 1) = s' := by
        show (match recordBatch (runBatches s u reqs k) u (reqs k) with
          | RecordResult.ok s' _ => s'
          | RecordResult.badRequest s' _ => s') = s'
        rw [heq]
      rw [hrun]
      refine ⟨by rw [ht', iht], by rw [hc', ihc]; omega, hw', hn' ihn⟩

/-- The user batch count after k successful calls, for k at least 1. -/
theorem runBatches_count (s : LedgerState) (u : String) (reqs : Nat → List String)
    (hwf : LedgerWF s) (hnd : NoDangling s)
    (hvalid : ∀ k, (s.assetTable.filter (fun a => (reqs k).contains a)).length =
      (reqs k).length) :
    ∀ k, 1 ≤ k → (userBatches (runBatches s u reqs k) u).length =
      min ((userBatches s u).length + k) 500 := by
  intro k
  induction k with
  | zero => omega
  | succ k ih =>
      intro _
      obtain ⟨iht, ihc, ihw, ihn⟩ := runBatches_invariant s u reqs hwf hnd hvalid k
      have hvk : ((runBatches s u reqs k).assetTable.filter
          (fun a => (reqs k).contains a)).length = (reqs k).length := by
        rw [iht]
        exact hvalid k
      obtain ⟨s', heq, _, _, _, _, hcount, _, _⟩ :=
        recordBatch_step (runBatches s u reqs k) u (reqs k) hvk ihw
      have hrun : runBatches s u reqs (k + 1) = s' := by
        show (match recordBatch (runBatches s u reqs k) u (reqs k) with
          | RecordResult.ok s' _ => s'
          | RecordResult.badRequest s' _ => s') = s'
        rw [heq]
      rw [hrun, hcount]
      by_cases hk : 1 ≤ k
      · rw [ih hk]
        omega
      · have hk0 : k = 0 := by omega
        subst hk0
        show min ((userBatches s u).length + 1) 500 = _
        rfl

/-- The batch created by call i survives through call k whenever at most
499 further calls follow it. -/
theorem runBatches_mem (s : LedgerState) (u : String) (reqs : Nat → List String)
    (hwf : LedgerWF s) (hnd : NoDangling s)
    (hvalid : ∀ k, (s.assetTable.filter (fun a => (reqs k).contains a)).length =
      (reqs k).length) :
    ∀ i k, i < k → k ≤ i + 500 →
      (⟨s.counter + i, u, s.counter + i⟩ : HistoryBatch) ∈
        (runBatches s u reqs k).batches := by
  intro i k
  induction k with
  | zero => omega
  | succ k ih =>
      intro hik hk500
      obtain ⟨iht, ihc, ihw, ihn⟩ := runBatches_invariant s u reqs hwf hnd hvalid k
      have hvk : ((runBatches s u reqs k).assetTable.filter
          (fun a => (reqs k).contains a)).length = (reqs k).length := by
        rw [iht]
        exact hvalid k
      obtain ⟨s', heq, _, _, _, _, _, hnew, hsurv⟩ :=
        recordBatch_step (runBatches s u reqs k) u (reqs k) hvk ihw
      have hrun : runBatches s u reqs (k + 1) = s' := by
        show (match recordBatch (runBatches s u reqs k) u (reqs k) with
          | RecordResult.ok s' _ => s'
          | RecordResult.badRequest s' _ => s') = s'
        rw [heq]
      rw [hrun]
      by_cases hki : i < k
      · -- created earlier: survives call k
        have hbmem := ih hki (by omega)
        have hk1 : 1 ≤ k := by omega
        have hcnt := runBatches_count s u reqs hwf hnd hvalid k hk1
        apply hsurv _ hbmem rfl
        by_cases hlt : (userBatches (runBatches s u reqs k) u).length < 500
        · exact Or.inl hlt
        · right
          have h500 : (userBatches (runBatches s u reqs k) u).length = 500 := by
            omega
          refine ⟨by omega, ?_⟩
          -- at most k - i user batches are as new as the surviving batch
          have hubnd : ((userBatches (runBatches s u reqs k) u).map
              (fun b => b.createdAt)).Nodup :=
            ihw.2.1.sublist ((List.filter_sublist _).map _)
          have hFsub : (((userBatches (runBatches s u reqs k) u).filter
              (fun y => decide (s.counter + i ≤ y.createdAt))).map
              (fun b => b.createdAt)).Nodup :=
            hubnd.sublist ((List.filter_sublist _).map _)
          have hFmem : ∀ v ∈ ((userBatches (runBatches s u reqs k) u).filter
              (fun y => decide (s.counter + i ≤ y.createdAt))).map
              (fun b => b.createdAt), v ∈ Finset.Ico (s.counter + i) (s.counter + k) := by
            intro v hv
            rcases List.mem_map.mp hv with ⟨y, hy, hye⟩
            have hylow : s.counter + i ≤ y.createdAt := by
              have hcond := List.of_mem_filter hy
              simpa using hcond
            have hyup : y.createdAt < s.counter + k := by
              have hyb : y ∈ (runBatches s u reqs k).batches :=
                List.mem_of_mem_filter (List.mem_of_mem_filter hy)
              have := (ihw.2.2 y hyb).2
              omega
            rw [Finset.mem_Ico, hye] at *
            exact ⟨by omega, by omega⟩
          have hFcard : (((userBatches (runBatches s u reqs k) u).filter
              (fun y => decide (s.counter + i ≤ y.createdAt))).map
              (fun b => b.createdAt)).length ≤ k - i := by
            have h1 : (((userBatches (runBatches s u reqs k) u).filter
                (fun y => decide (s.counter + i ≤ y.createdAt))).map
                (fun b => b.createdAt)).toFinset ⊆
                Finset.Ico (s.counter + i) (s.counter + k) := by
              intro v hv
              exact hFmem v (List.mem_toFinset.mp hv)
            have h2 := Finset.card_le_card h1
            rw [List.toFinset_card_of_nodup hFsub, Nat.card_Ico] at h2
            omega
          have hsplit := List.length_eq_length_filter_add
            (l := userBatches (runBatches s u reqs k) u)
            (fun y => decide (s.counter + i ≤ y.createdAt))
          have hGlen : ((userBatches (runBatches s u reqs k) u).filter
              (fun y => !(decide (s.counter + i ≤ y.createdAt)))).length ≥ 1 := by
            rw [List.length_map] at hFcard
            omega
          have hGne : (userBatches (runBatches s u reqs k) u).filter
              (fun y => !(decide (s.counter + i ≤ y.createdAt))) ≠ [] := by
            intro hcon
            rw [hcon] at hGlen
            simp at hGlen
          obtain ⟨y, hy⟩ := List.exists_mem_of_ne_nil _ hGne
          refine ⟨y, List.mem_of_mem_filter hy, ?_⟩
          have hcond := List.of_mem_filter hy
          simp only [Bool.not_eq_true', decide_eq_false_iff_not, not_le] at hcond
          exact hcond
      · -- i = k: created by this very call
        have hik' : i = k := by omega
        subst hik'
        have hcc : (runBatches s u reqs i).counter = s.counter + i := ihc
        rw [← hcc]
        exact hnew

/-- Claim C2: after N at least 501 successful history-batch insertions the
user holds exactly 500 batches; the batches created by the last 500 calls
are all present; every remaining batch was created during those last 500
calls (they are the 500 most recently created, eviction having removed the
oldest by ascending createdAt); and no link of an evicted batch remains.
Eviction and insertion happen in the one atomic transition recordBatch, as
in the drizzle transaction. -/
theorem history_capped_at_500 (s : LedgerState) (u : String) (reqs : Nat → List String)
    (N : Nat) (hN : 501 ≤ N) (hwf : LedgerWF s) (hnd : NoDangling s)
    (hvalid : ∀ k, (s.assetTable.filter (fun a => (reqs k).contains a)).length =
      (reqs k).length) :
    (userBatches (runBatches s u reqs N) u).length = 500 ∧
    (∀ i, N - 500 ≤ i → i < N →
      (⟨s.counter + i, u, s.counter + i⟩ : HistoryBatch) ∈
        userBatches (runBatches s u reqs N) u) ∧
    (∀ b ∈ userBatches (runBatches s u reqs N) u,
      s.counter + (N - 500) ≤ b.createdAt) ∧
    NoDangling (runBatches s u reqs N) := by
  obtain ⟨iht, ihc, ihw, ihn⟩ := runBatches_invariant s u reqs hwf hnd hvalid N
  have hcount := runBatches_count s u reqs hwf hnd hvalid N (by omega)
  have hc500 : (userBatches (runBatches s u reqs N) u).length = 500 := by
    rw [hcount]
    omega
  have hmem : ∀ i, N - 500 ≤ i → i < N →
      (⟨s.counter + i, u, s.counter + i⟩ : HistoryBatch) ∈
        userBatches (runBatches s u reqs N) u := by
    intro i h1 h2
    apply List.mem_filter.mpr
    exact ⟨runBatches_mem s u reqs hwf hnd hvalid i N h2 (by omega), by simp⟩
  refine ⟨hc500, hmem, ?_, ihn⟩
  have hMnd : ((userBatches (runBatches s u reqs N) u).map
      (fun b => b.createdAt)).Nodup :=
    ihw.2.1.sublist ((List.filter_sublist _).map _)
  have hsub : Finset.Ico (s.counter + (N - 500)) (s.counter + N) ⊆
      ((userBatches (runBatches s u reqs N) u).map (fun b => b.createdAt)).toFinset := by
    intro v hv
    rw [Finset.mem_Ico] at hv
    have hi1 : N - 500 ≤ v - s.counter := by omega
    have hi2 : v - s.counter < N := by omega
    have hb := hmem (v - s.counter) hi1 hi2
    rw [List.mem_toFinset]
    have hca : (⟨s.counter + (v - s.counter), u, s.counter + (v - s.counter)⟩ :
        HistoryBatch).createdAt = v := by
      show s.counter + (v - s.counter) = v
      omega
    exact List.mem_map.mpr ⟨_, hb, hca⟩
  have hcards : (((userBatches (runBatches s u reqs N) u).map
      (fun b => b.createdAt)).toFinset).card ≤
      (Finset.Ico (s.counter + (N - 500)) (s.counter + N)).card := by
    rw [List.toFinset_card_of_nodup hMnd, List.length_map, hc500, Nat.card_Ico]
    omega
  have heq := Finset.eq_of_subset_of_card_le hsub hcards
  intro b hb
  have hbm : b.createdAt ∈ ((userBatches (runBatches s u reqs N) u).map
      (fun b => b.createdAt)).toFinset :=
    List.mem_toFinset.mpr (List.mem_map_of_mem _ hb)
  rw [← heq, Finset.mem_Ico] at hbm
  omega

/-- Claim C2 witness: 501 singleton batches recorded by one user against a
one-asset table, starting from an empty ledger, leave exactly 500
batches. -/
theorem history_capped_at_500_witness :
    (userBatches (runBatches ⟨["a1"], [], [], 0⟩ "u1" (fun _ => ["a1"]) 501) "u1").length
      = 500 :=
  (history_capped_at_500 ⟨["a1"], [], [], 0⟩ "u1" (fun _ => ["a1"]) 501
    (by decide) (by unfold LedgerWF; decide) (by unfold NoDangling; decide)
    (fun _ => rfl)).1

end Skowtcc
